import Mathlib

/-!
Formal model of the PlanMyKids program-website scraper
(`src/scraper/scrape_program.py`), a shallow embedding of the
`ProgramScraper` class: URL normalization, link extraction and
prioritization, registration-URL and registration-date extraction, the
bounded BFS crawl loop, and the post-crawl registration-page fallback.

Conventions of the embedding:
* Python strings are modelled as `List Char` (Python indexes/slices by
  code point, which matches `List Char` indexing).  `String` wrappers are
  used at API boundaries.
* Python `str.lower` is modelled for ASCII (`pyToLower`); every concrete
  input used in the theorems below is ASCII.
* `datetime.datetime(y, m, d)` is modelled by `mkDatetime` returning
  `Option PyDate` (`none` models the `ValueError` the code catches).
  `datetime.now()` is modelled by `PyNow`: a calendar date plus a flag
  telling whether the current time is exactly midnight, which is all that
  comparisons of a parsed (midnight) date against `now` can observe.
* Calls into `urllib.parse.urljoin` and the order `list(set(...))`
  enumerates a Python set are environment-dependent library behaviour;
  they are passed in as parameters (`uj`, `pySet`) of the model.
-/

namespace PlanMyKids

/-! ## Characters and Python string primitives -/

/-- Python `str.lower` on one ASCII character. -/
def pyToLower (c : Char) : Char :=
  if 65 ≤ c.toNat ∧ c.toNat ≤ 90 then Char.ofNat (c.toNat + 32) else c

/-- Python `str.lower` on a string (ASCII model). -/
def pyLowerL (s : List Char) : List Char := s.map pyToLower

/-- `\d` of Python `re` (ASCII model). -/
def isPyDigit (c : Char) : Bool := 48 ≤ c.toNat && c.toNat ≤ 57

/-- `\s` of Python `re` and the default `str.strip` set (ASCII model):
space, tab, newline, carriage return, vertical tab, form feed. -/
def isPySpace (c : Char) : Bool :=
  c = ' ' || c = '\t' || c = '\n' || c = '\x0d' || c = '\x0b' || c = '\x0c'

/-- Python `str.strip()` (both ends, whitespace). -/
def pyStrip (s : List Char) : List Char :=
  ((s.dropWhile isPySpace).reverse.dropWhile isPySpace).reverse

/-- Python `str.rstrip('/')`. -/
def rstripSlash (s : List Char) : List Char :=
  (s.reverse.dropWhile (fun c => c = '/')).reverse

/-- Split a list at the first occurrence of `sep`:
`some (before, after)` without the separator, `none` when absent. -/
def splitAtFirst (sep : Char) : List Char → Option (List Char × List Char)
  | [] => none
  | c :: rest =>
    if c = sep then some ([], rest)
    else
      match splitAtFirst sep rest with
      | none => none
      | some (a, b) => some (c :: a, b)

/-- Index of the first occurrence of `needle` in `hay`
(Python `str.find`, with `none` for `-1`). -/
def findSub (needle : List Char) : List Char → Option Nat
  | [] => if needle = [] then some 0 else none
  | c :: rest =>
    if needle.isPrefixOf (c :: rest) then some 0
    else
      match findSub needle rest with
      | none => none
      | some i => some (i + 1)

/-- Python `sub in s` substring test. -/
def containsSub (needle hay : List Char) : Bool := (findSub needle hay).isSome

/-- Python `s.startswith(p)`. -/
def startsWithL (p s : List Char) : Bool := p.isPrefixOf s

/-- Python `s.endswith(p)`. -/
def endsWithL (p s : List Char) : Bool := p.reverse.isPrefixOf s.reverse

/-- Python `int(s)` on a string of decimal digits. -/
def strToNat (s : List Char) : Nat :=
  s.foldl (fun acc c => acc * 10 + (c.toNat - 48)) 0

/-- Python `s.isdigit()` (ASCII model): nonempty and all digits. -/
def strIsDigit (s : List Char) : Bool := !s.isEmpty && s.all isPyDigit

/-! ## Dates (`datetime` model) -/

/-- A `datetime.datetime(year, month, day)` value (time 00:00). -/
structure PyDate where
  year : Nat
  month : Nat
  day : Nat
deriving DecidableEq, Repr

/-- The value of `datetime.now()` at the time the extractor runs: its
calendar date, and whether the clock reads exactly midnight (the only
further information a comparison with a midnight `PyDate` can see). -/
structure PyNow where
  date : PyDate
  midnight : Bool
deriving DecidableEq, Repr

/-- Gregorian leap year, as `datetime` uses. -/
def isLeapYear (y : Nat) : Bool :=
  y % 4 = 0 && (y % 100 ≠ 0 || y % 400 = 0)

/-- Days in a month, as `datetime` uses. -/
def daysInMonth (y m : Nat) : Nat :=
  if m = 2 then (if isLeapYear y then 29 else 28)
  else if m = 4 ∨ m = 6 ∨ m = 9 ∨ m = 11 then 30
  else 31

/-- `datetime.datetime(y, m, d)`: `none` models the `ValueError` raised on
an out-of-range year, month or day (the code catches it and continues). -/
def mkDatetime (y m d : Nat) : Option PyDate :=
  if 1 ≤ y ∧ y ≤ 9999 ∧ 1 ≤ m ∧ m ≤ 12 ∧ 1 ≤ d ∧ d ≤ daysInMonth y m then
    some ⟨y, m, d⟩
  else none

/-- Strict lexicographic order on calendar dates. -/
def dateLtB (a b : PyDate) : Bool :=
  a.year < b.year ||
    (a.year = b.year &&
      (a.month < b.month || (a.month = b.month && a.day < b.day)))

/-- `parsed_date >= today` for a midnight `parsed_date` against `now`:
true when the parsed day is strictly after today's day, or equal to it
while the clock reads exactly midnight. -/
def dateGeNowB (d : PyDate) (n : PyNow) : Bool :=
  dateLtB n.date d || (n.date = d && n.midnight)

/-- Zero-padded decimal rendering of width `w`. -/
def padNum (w n : Nat) : List Char :=
  let digits := (Nat.toDigits 10 n)
  List.replicate (w - digits.length) '0' ++ digits

/-- `found_date.strftime('%Y-%m-%d')`. -/
def formatDate (d : PyDate) : String :=
  String.mk (padNum 4 d.year ++ '-' :: padNum 2 d.month ++ '-' :: padNum 2 d.day)

end PlanMyKids

namespace PlanMyKids

/-! ## The date regexes of `_extract_registration_info`

Each of the six patterns in `date_patterns` (scrape_program.py lines
765-778, duplicated verbatim at lines 905-912) is embedded as a matcher in
continuation-passing style so that the backtracking of Python `re`
(greedy `\d{1,2}`, ordered alternation over month names, optional groups)
is reproduced exactly.  The contexts fed to these patterns are slices of
`text_lower`, so they are lowercase; `re.IGNORECASE` therefore reduces to
literal matching and a captured month name equals the alternative that
matched. -/

/-- Python `str.lower` at `String` type. -/
def pyLowerS (s : String) : String := String.mk (pyLowerL s.data)

/-- Match a literal, then continue. -/
def matchLit (lit s : List Char) (k : List Char → Option α) : Option α :=
  if lit.isPrefixOf s then k (s.drop lit.length) else none

/-- Ordered regex alternation over literals, with backtracking: the first
alternative under which the continuation succeeds wins. -/
def matchAlts (alts : List String) (s : List Char)
    (k : String → List Char → Option α) : Option α :=
  match alts with
  | [] => none
  | a :: rest =>
    match matchLit a.data s (fun r => k a r) with
    | some v => some v
    | none => matchAlts rest s k

/-- Greedy `\s*` with backtracking. -/
def matchSpaceStar (s : List Char) (k : List Char → Option α) : Option α :=
  match s with
  | [] => k []
  | c :: rest =>
    if isPySpace c then
      match matchSpaceStar rest k with
      | some v => some v
      | none => k (c :: rest)
    else k (c :: rest)

/-- `\s+`: one whitespace character, then greedy `\s*`. -/
def matchSpacePlus (s : List Char) (k : List Char → Option α) : Option α :=
  match s with
  | [] => none
  | c :: rest => if isPySpace c then matchSpaceStar rest k else none

/-- Greedy optional alternation (`(?:...)?` / `,?`): try each alternative
first, fall back to matching nothing. -/
def matchOptAlts (alts : List String) (s : List Char)
    (k : List Char → Option α) : Option α :=
  match matchAlts alts s (fun _ r => k r) with
  | some v => some v
  | none => k s

/-- Greedy `(\d{1,2})` with backtracking: two digits, else one. -/
def matchDigits12 (s : List Char) (k : String → List Char → Option α) :
    Option α :=
  match s with
  | [] => none
  | [c1] => if isPyDigit c1 then k (String.mk [c1]) [] else none
  | c1 :: c2 :: rest =>
    if isPyDigit c1 then
      if isPyDigit c2 then
        match k (String.mk [c1, c2]) rest with
        | some v => some v
        | none => k (String.mk [c1]) (c2 :: rest)
      else k (String.mk [c1]) (c2 :: rest)
    else none

/-- `(\d{n})`: exactly `n` digits. -/
def matchDigitsExact (n : Nat) (s : List Char)
    (k : String → List Char → Option α) : Option α :=
  if (s.take n).length = n && (s.take n).all isPyDigit then
    k (String.mk (s.take n)) (s.drop n)
  else none

/-- Whether `\s*,?\s*\d{4}` matches a prefix of `s` — the body of the
negative lookahead `(?!\s*,?\s*\d{4})` of the year-less patterns.  The
character classes involved are disjoint, so a deterministic scan is
equivalent to the regex search. -/
def yearFollows (s : List Char) : Bool :=
  let s1 := s.dropWhile isPySpace
  let s2 := match s1 with
    | ',' :: r => r
    | _ => s1
  let s3 := s2.dropWhile isPySpace
  (s3.take 4).length = 4 && (s3.take 4).all isPyDigit

/-- The day-name alternation `(?:monday|tuesday|...|sunday)`. -/
def dayNames : List String :=
  ["monday", "tuesday", "wednesday", "thursday", "friday", "saturday",
   "sunday"]

/-- The month-name alternation, in the order the regexes list it. -/
def monthNames : List String :=
  ["january", "february", "march", "april", "may", "june", "july",
   "august", "september", "october", "november", "december", "jan", "feb",
   "mar", "apr", "may", "jun", "jul", "aug", "sep", "sept", "oct", "nov",
   "dec"]

/-- The `months` name→number dictionary (lines 754-759). -/
def monthsMap : List (String × Nat) :=
  [("january", 1), ("jan", 1), ("february", 2), ("feb", 2), ("march", 3),
   ("mar", 3), ("april", 4), ("apr", 4), ("may", 5), ("june", 6),
   ("jun", 6), ("july", 7), ("jul", 7), ("august", 8), ("aug", 8),
   ("september", 9), ("sep", 9), ("sept", 9), ("october", 10),
   ("oct", 10), ("november", 11), ("nov", 11), ("december", 12),
   ("dec", 12)]

/-- `months.get(name, 0)`. -/
def monthLookup (s : String) : Nat :=
  match monthsMap.find? (fun p => p.1 = s) with
  | some p => p.2
  | none => 0

/-- Captured groups of one date-pattern match: three groups for the
patterns with a year, two for the year-less ones. -/
inductive DateGroups where
  | g3 : String → String → String → DateGroups
  | g2 : String → String → DateGroups
deriving DecidableEq, Repr

/-- Pattern 1: day name, month name, day, year. -/
def matchPat1 (s : List Char) : Option DateGroups :=
  matchAlts dayNames s (fun _ r1 =>
    matchOptAlts [","] r1 (fun r2 =>
      matchSpaceStar r2 (fun r3 =>
        matchAlts monthNames r3 (fun mo r4 =>
          matchSpacePlus r4 (fun r5 =>
            matchDigits12 r5 (fun dd r6 =>
              matchOptAlts ["st", "nd", "rd", "th"] r6 (fun r7 =>
                matchOptAlts [","] r7 (fun r8 =>
                  matchSpaceStar r8 (fun r9 =>
                    matchDigitsExact 4 r9 (fun yy _ =>
                      some (DateGroups.g3 mo dd yy)))))))))))

/-- Pattern 2: month name, day, year. -/
def matchPat2 (s : List Char) : Option DateGroups :=
  matchAlts monthNames s (fun mo r4 =>
    matchSpacePlus r4 (fun r5 =>
      matchDigits12 r5 (fun dd r6 =>
        matchOptAlts ["st", "nd", "rd", "th"] r6 (fun r7 =>
          matchOptAlts [","] r7 (fun r8 =>
            matchSpaceStar r8 (fun r9 =>
              matchDigitsExact 4 r9 (fun yy _ =>
                some (DateGroups.g3 mo dd yy))))))))

/-- Pattern 3: `(\d{1,2})/(\d{1,2})/(\d{4})`. -/
def matchPat3 (s : List Char) : Option DateGroups :=
  matchDigits12 s (fun a r1 =>
    matchLit ['/'] r1 (fun r2 =>
      matchDigits12 r2 (fun b r3 =>
        matchLit ['/'] r3 (fun r4 =>
          matchDigitsExact 4 r4 (fun c _ =>
            some (DateGroups.g3 a b c))))))

/-- Pattern 4: `(\d{4})-(\d{2})-(\d{2})`. -/
def matchPat4 (s : List Char) : Option DateGroups :=
  matchDigitsExact 4 s (fun y r1 =>
    matchLit ['-'] r1 (fun r2 =>
      matchDigitsExact 2 r2 (fun m r3 =>
        matchLit ['-'] r3 (fun r4 =>
          matchDigitsExact 2 r4 (fun d _ =>
            some (DateGroups.g3 y m d))))))

/-- Pattern 5: day name, month name, day, no year (negative lookahead). -/
def matchPat5 (s : List Char) : Option DateGroups :=
  matchAlts dayNames s (fun _ r1 =>
    matchOptAlts [","] r1 (fun r2 =>
      matchSpaceStar r2 (fun r3 =>
        matchAlts monthNames r3 (fun mo r4 =>
          matchSpacePlus r4 (fun r5 =>
            matchDigits12 r5 (fun dd r6 =>
              matchOptAlts ["st", "nd", "rd", "th"] r6 (fun r7 =>
                if yearFollows r7 then none
                else some (DateGroups.g2 mo dd))))))))

/-- Pattern 6: month name, day, no year (negative lookahead). -/
def matchPat6 (s : List Char) : Option DateGroups :=
  matchAlts monthNames s (fun mo r4 =>
    matchSpacePlus r4 (fun r5 =>
      matchDigits12 r5 (fun dd r6 =>
        matchOptAlts ["st", "nd", "rd", "th"] r6 (fun r7 =>
          if yearFollows r7 then none
          else some (DateGroups.g2 mo dd)))))

/-- `re.findall(pattern, context)[0]`: the groups of the leftmost match —
try the pattern at each start position, left to right. -/
def findFirstMatch (patAt : List Char → Option DateGroups) :
    List Char → Option DateGroups
  | [] => patAt []
  | c :: rest =>
    match patAt (c :: rest) with
    | some g => some g
    | none => findFirstMatch patAt rest

/-- `date_patterns`, in order. -/
def datePatterns : List (List Char → Option DateGroups) :=
  [matchPat1, matchPat2, matchPat3, matchPat4, matchPat5, matchPat6]

/-- `parsed_date = datetime(year, month, day)` (a `ValueError` is the
`continue` path) followed by `if parsed_date >= today: return
parsed_date` (a past date falls through to the next pattern). -/
def acceptFuture (today : PyNow) (o : Option PyDate) : Option PyDate :=
  match o with
  | none => none
  | some pd => if dateGeNowB pd today then some pd else none

/-- Processing of one pattern's first match (the `try` body of
`parse_date_from_context`): decode the groups, build the `datetime`, keep
it only when it is not before `today`.  `none` is any of the `continue`
paths (unusable groups, month 0, `ValueError`, past date). -/
def handleGroups (today : PyNow) (g : DateGroups) : Option PyDate :=
  match g with
  | DateGroups.g3 a b c =>
    let ymd : Option (Nat × Nat × Nat) :=
      if strIsDigit a.data && a.data.length = 4 then
        some (strToNat a.data, strToNat b.data, strToNat c.data)
      else if strIsDigit c.data && c.data.length = 4 then
        if strIsDigit a.data then
          some (strToNat c.data, strToNat a.data, strToNat b.data)
        else
          some (strToNat c.data, monthLookup (pyLowerS a), strToNat b.data)
      else none
    match ymd with
    | none => none
    | some (y, m, d) =>
      if m = 0 then none
      else acceptFuture today (mkDatetime y m d)
  | DateGroups.g2 mo dd =>
    let m := monthLookup (pyLowerS mo)
    let d := strToNat dd.data
    match mkDatetime today.date.year m d with
    | none => none
    | some test =>
      let y := if dateGeNowB test today then today.date.year
               else today.date.year + 1
      if m = 0 then none
      else acceptFuture today (mkDatetime y m d)

/-- The pattern loop of `parse_date_from_context`: first pattern whose
first match survives `handleGroups` wins; everything else falls through to
the next pattern. -/
def parseGo (today : PyNow) (context : List Char) :
    List (List Char → Option DateGroups) → Option PyDate
  | [] => none
  | p :: ps =>
    match findFirstMatch p context with
    | none => parseGo today context ps
    | some g =>
      match handleGroups today g with
      | some d => some d
      | none => parseGo today context ps

/-- `parse_date_from_context` (lines 795-841; the copy at 914-947 is
identical). -/
def parseDateFromContext (today : PyNow) (context : List Char) :
    Option PyDate :=
  parseGo today context datePatterns

/-- `re_enrollment_keywords` of `_extract_registration_info`
(lines 781-785). -/
def reEnrollmentKeywords : List String :=
  ["re-enrollment", "reenrollment", "re enrollment", "current students",
   "returning students", "current families", "priority registration",
   "early registration"]

/-- `new_registration_keywords` of `_extract_registration_info`
(lines 788-793). -/
def newRegistrationKeywords : List String :=
  ["open enrollment", "new enrollment", "new students", "new families",
   "general registration", "public registration",
   "returning students begins", "registration opens",
   "registration begins", "enrollment opens", "enrollment begins",
   "sign up", "register by", "enroll by"]

/-- One keyword loop (lines 844-855 / 858-869): first keyword present in
the text whose 300-character forward context yields an accepted date. -/
def scanKeywords (today : PyNow) (textLower : List Char) :
    List String → Option PyDate
  | [] => none
  | kw :: rest =>
    match findSub kw.data textLower with
    | none => scanKeywords today textLower rest
    | some i =>
      match parseDateFromContext today ((textLower.drop i).take 300) with
      | some d => some d
      | none => scanKeywords today textLower rest

/-- Result of one keyword loop on one date field: the found date
(formatted `%Y-%m-%d`) overwrites the field; otherwise the field keeps its
previous value.  Note there is no already-set guard here — this is the
assignment of lines 854 and 868. -/
def datePass (today : PyNow) (textLower : List Char) (kws : List String)
    (old : Option String) : Option String :=
  match scanKeywords today textLower kws with
  | some d => some (formatDate d)
  | none => old

/-- The date half of `_extract_registration_info` (lines 750-869), acting
on the two date fields of `self.data`. -/
def extractRegistrationDates (today : PyNow) (text : String)
    (reIn newIn : Option String) : Option String × Option String :=
  let lower := pyLowerL text.data
  (datePass today lower reEnrollmentKeywords reIn,
   datePass today lower newRegistrationKeywords newIn)

end PlanMyKids

namespace PlanMyKids

/-! ## `urllib.parse.urlparse` and `_normalize_url`

`urlparse` is modelled after CPython 3.11: scheme = text before the first
`:` when that text starts with an ASCII letter and consists of scheme
characters (lowercased); netloc = text between `//` and the next
`/`/`?`/`#`; then the fragment is split at the first `#`, the query at the
first `?`, and `;params` are split out of the last path segment. -/

/-- An ASCII letter (`A`-`Z` or `a`-`z`), as Python `str.isalpha`
decides it on ASCII input. -/
def isAsciiAlpha (c : Char) : Bool :=
  (65 ≤ c.toNat && c.toNat ≤ 90) || (97 ≤ c.toNat && c.toNat ≤ 122)

/-- The characters of CPython's `scheme_chars` string
(`abcdefghijklmnopqrstuvwxyzABCDEFGHIJKLMNOPQRSTUVWXYZ0123456789+-.`). -/
def isSchemeChar (c : Char) : Bool :=
  isAsciiAlpha c || isPyDigit c || c = '+' || c = '-' || c = '.'

/-- The validity test `urlsplit` applies to the text before the first
`:`: nonempty, first character an ASCII letter, all characters in
`scheme_chars`. -/
def isValidSchemeL : List Char → Bool
  | [] => false
  | c :: rest => isAsciiAlpha c && (c :: rest).all isSchemeChar

/-- Characters that end the netloc. -/
def isNetlocEnd (c : Char) : Bool := c = '/' || c = '?' || c = '#'

/-- Scheme extraction of `urlsplit`: `(scheme, rest)`; on an absent or
invalid scheme the input is returned unchanged with an empty scheme. -/
def extractSchemeL (s : List Char) : List Char × List Char :=
  match splitAtFirst ':' s with
  | none => ([], s)
  | some (pre, post) =>
    if isValidSchemeL pre then (pyLowerL pre, post) else ([], s)

/-- Netloc extraction of `urlsplit`: after a leading `//`, everything up
to the first `/`, `?` or `#`. -/
def extractNetlocL (s : List Char) : List Char × List Char :=
  match s with
  | '/' :: '/' :: rest =>
    (rest.takeWhile (fun c => !isNetlocEnd c),
     rest.dropWhile (fun c => !isNetlocEnd c))
  | _ => ([], s)

/-- Split at the first `#`: `(kept, fragment)`. -/
def splitFragmentL (s : List Char) : List Char × List Char :=
  match splitAtFirst '#' s with
  | none => (s, [])
  | some (a, b) => (a, b)

/-- Split at the first `?`: `(kept, query)`. -/
def splitQueryL (s : List Char) : List Char × List Char :=
  match splitAtFirst '?' s with
  | none => (s, [])
  | some (a, b) => (a, b)

/-- `_splitparams` of `urlparse`: when the path contains `;`, split the
part after the last `/` (or the whole path when it has no `/`) at its
first `;`. -/
def splitParamsL (p : List Char) : List Char × List Char :=
  if p.contains ';' then
    if p.contains '/' then
      let lastSeg := (p.reverse.takeWhile (fun c => c ≠ '/')).reverse
      let front := p.take (p.length - lastSeg.length)
      match splitAtFirst ';' lastSeg with
      | none => (p, [])
      | some (a, b) => (front ++ a, b)
    else
      match splitAtFirst ';' p with
      | none => (p, [])
      | some (a, b) => (a, b)
  else (p, [])

/-- The components `urlparse` returns (list-of-characters level). -/
structure UrlPartsL where
  scheme : List Char
  netloc : List Char
  path : List Char
  params : List Char
  query : List Char
  fragment : List Char
deriving DecidableEq, Repr

/-- `urllib.parse.urlparse`, list level. -/
def pyUrlparseL (url : List Char) : UrlPartsL :=
  let s1 := extractSchemeL url
  let s2 := extractNetlocL s1.2
  let s3 := splitFragmentL s2.2
  let s4 := splitQueryL s3.1
  let s5 := splitParamsL s4.1
  ⟨s1.1, s2.1, s5.1, s5.2, s4.2, s3.2⟩

/-- The components `urlparse` returns (`String` level). -/
structure UrlParts where
  scheme : String
  netloc : String
  path : String
  params : String
  query : String
  fragment : String
deriving DecidableEq, Repr

/-- `urllib.parse.urlparse`. -/
def pyUrlparse (url : String) : UrlParts :=
  let p := pyUrlparseL url.data
  ⟨String.mk p.scheme, String.mk p.netloc, String.mk p.path,
   String.mk p.params, String.mk p.query, String.mk p.fragment⟩

/-- `_normalize_url` (lines 65-72), list level:
`f"{scheme}://{netloc}{path.rstrip('/')}"` plus `?query` when the query is
nonempty. -/
def normalizeL (url : List Char) : List Char :=
  let p := pyUrlparseL url
  let base := p.scheme ++ ':' :: '/' :: '/' :: (p.netloc ++ rstripSlash p.path)
  if p.query.isEmpty then base else base ++ '?' :: p.query

/-- `_normalize_url` (lines 65-72). -/
def normalizeUrl (url : String) : String := String.mk (normalizeL url.data)

/-- An absolute URL assembled from its components:
`scheme : // host path query fragment` (the query part carries its own
leading `?`, the fragment part its own leading `#`). -/
def wfUrl (sch host p qpart fpart : List Char) : List Char :=
  sch ++ ':' :: '/' :: '/' :: (host ++ (p ++ (qpart ++ fpart)))

/-- Well-formedness of the components of `wfUrl`: a valid scheme, a host
free of `/` `?` `#`, a path that is empty or starts with `/` and contains
no `?` `#` `;`, a query part that is empty or `?`-led with no `#` after
the `?`, and a fragment part that is empty or `#`-led. -/
def WfUrl (sch host p qpart fpart : List Char) : Prop :=
  isValidSchemeL sch = true ∧
  (∀ c ∈ host, isNetlocEnd c = false) ∧
  (p = [] ∨ p.head? = some '/') ∧
  (∀ c ∈ p, c ≠ '?' ∧ c ≠ '#' ∧ c ≠ ';') ∧
  (qpart = [] ∨ (qpart.head? = some '?' ∧ '#' ∉ qpart.drop 1)) ∧
  (fpart = [] ∨ fpart.head? = some '#')

instance (sch host p qpart fpart : List Char) :
    Decidable (WfUrl sch host p qpart fpart) := by
  unfold WfUrl; infer_instance

end PlanMyKids

namespace PlanMyKids

/-! ## Links: validity, extraction, prioritization
(`_is_valid_page_url`, `_is_same_domain`, `_extract_internal_links`,
`_is_registration_related`, `_prioritize_links`)

An `Anchor` is one `<a href=...>` element of the parsed page: its `href`
attribute and its `get_text()` text.  `urljoin` and the iteration order of
`list(set(...))` are passed in as parameters `uj` and `pySet`. -/

/-- One anchor element of a parsed page. -/
structure Anchor where
  href : String
  text : String
deriving DecidableEq, Repr

/-- `skip_extensions` (lines 89-90). -/
def skipExtensions : List String :=
  [".pdf", ".jpg", ".jpeg", ".png", ".gif", ".svg", ".css", ".js",
   ".zip", ".doc", ".docx", ".xls", ".xlsx", ".mp3", ".mp4", ".avi"]

/-- The non-navigable scheme list of `_is_valid_page_url` (line 85). -/
def skipProtocols : List String :=
  ["mailto:", "tel:", "javascript:", "data:", "#"]

/-- `_is_valid_page_url` (lines 79-95). -/
def isValidPageUrl (url : String) : Bool :=
  if url.data.isEmpty then false
  else if skipProtocols.any (fun p => startsWithL p.data url.data) then false
  else if skipExtensions.any
      (fun e => endsWithL e.data (pyLowerL url.data)) then false
  else true

/-- `_is_same_domain` (lines 74-77). -/
def isSameDomain (domain url : String) : Bool :=
  (pyUrlparse url).netloc == domain || (pyUrlparse url).netloc == ""

/-- The anchor loop of `_extract_internal_links` (lines 101-121),
producing the discovery-ordered candidate list (before deduplication). -/
def extractLinksGo (uj : String → String → String)
    (base domain currentUrl : String) (visited : List String) :
    List Anchor → List String
  | [] => []
  | a :: rest =>
    let href := String.mk (pyStrip a.href.data)
    let tail := extractLinksGo uj base domain currentUrl visited rest
    if !isValidPageUrl href then tail
    else
      let fullOpt : Option String :=
        if startsWithL ['/'] href.data then some (base ++ href)
        else if startsWithL "http".data href.data then some href
        else if !(startsWithL "mailto:".data href.data ||
                  startsWithL "tel:".data href.data ||
                  startsWithL "javascript:".data href.data) then
          some (uj currentUrl href)
        else none
      match fullOpt with
      | none => tail
      | some full =>
        if isSameDomain domain full then
          let normalized := normalizeUrl full
          if normalized ∈ visited then tail else normalized :: tail
        else tail

/-- `_extract_internal_links` (lines 97-123): the candidate loop followed
by `list(set(links))`, whose enumeration order is the environment
parameter `pySet`. -/
def extractInternalLinks (uj : String → String → String)
    (pySet : List String → List String) (base domain currentUrl : String)
    (visited : List String) (anchors : List Anchor) : List String :=
  pySet (extractLinksGo uj base domain currentUrl visited anchors)

/-- `registration_keywords` of `_is_registration_related`
(lines 127-130). -/
def prioKeywords : List String :=
  ["register", "registration", "enroll", "enrollment", "sign-up",
   "signup", "classes", "schedule", "programs", "sessions", "calendar",
   "book", "booking"]

/-- `_is_registration_related` (lines 125-135). -/
def isRegistrationRelated (url linkText : String) : Bool :=
  prioKeywords.any (fun kw =>
    containsSub kw.data (pyLowerL url.data) ||
    containsSub kw.data (pyLowerL linkText.data))

/-- The `link_texts` map of `_prioritize_links` (lines 143-154), as an
association list in insertion order (a later binding for the same key
shadows an earlier one, like Python dict assignment). -/
def linkTextPairs (uj : String → String → String) (base seed : String)
    (anchors : List Anchor) : List (String × String) :=
  anchors.map (fun a =>
    let href := String.mk (pyStrip a.href.data)
    let full :=
      if startsWithL ['/'] href.data then base ++ href
      else if startsWithL "http".data href.data then href
      else uj seed href
    (normalizeUrl full, String.mk (pyStrip a.text.data)))

/-- `link_texts.get(link, "")` with Python-dict (last-wins) shadowing. -/
def dictGet (pairs : List (String × String)) (key : String) : String :=
  match pairs.reverse.find? (fun p => p.1 == key) with
  | some p => p.2
  | none => ""

/-- The partition loop of `_prioritize_links` (lines 156-163), with its
two accumulators. -/
def prioritizeGo (pairs : List (String × String)) :
    List String → List String → List String → List String
  | [], regAcc, othAcc => regAcc ++ othAcc
  | l :: rest, regAcc, othAcc =>
    if isRegistrationRelated l (dictGet pairs l) then
      prioritizeGo pairs rest (regAcc ++ [l]) othAcc
    else prioritizeGo pairs rest regAcc (othAcc ++ [l])

/-- `_prioritize_links` (lines 137-163). -/
def prioritizeLinks (uj : String → String → String) (base seed : String)
    (anchors : List Anchor) (links : List String) : List String :=
  prioritizeGo (linkTextPairs uj base seed anchors) links [] []

/-! ## Registration URL (`_extract_registration_info`, lines 723-748) -/

/-- `registration_keywords` of the URL scan (line 724). -/
def regUrlKeywords : List String :=
  ["register", "enroll", "sign-up", "signup", "sign up"]

/-- URL resolution of a matching anchor (lines 736-745): root-relative
hrefs resolve against the seed's origin, `http...` hrefs are kept, other
hrefs containing `:` make the loop `continue`, and the rest are glued to
the seed URL. -/
def resolveRegHref (seed href : String) : Option String :=
  if startsWithL ['/'] href.data then
    some ((pyUrlparse seed).scheme ++ "://" ++ (pyUrlparse seed).netloc
      ++ href)
  else if startsWithL "http".data href.data then some href
  else if href.data.contains ':' then none
  else some (String.mk (rstripSlash seed.data) ++ "/" ++ href)

/-- One iteration of the anchor scan (lines 726-748): `none` when the
anchor is skipped (mailto/tel, no keyword, unresolvable href). -/
def anchorRegResolve (seed : String) (a : Anchor) : Option String :=
  let hl := pyLowerL a.href.data
  let tl := pyLowerL a.text.data
  if startsWithL "mailto:".data hl || startsWithL "tel:".data hl then none
  else if regUrlKeywords.any (fun kw =>
      containsSub kw.data hl || containsSub kw.data tl) then
    resolveRegHref seed a.href
  else none

/-- The registration-URL half of `_extract_registration_info`: the first
anchor that matches and resolves overwrites the field (the loop `break`s);
with no such anchor the field keeps its previous value. -/
def extractRegUrl (seed : String) (anchors : List Anchor)
    (old : Option String) : Option String :=
  match anchors with
  | [] => old
  | a :: rest =>
    match anchorRegResolve seed a with
    | some u => some u
    | none => extractRegUrl seed rest old

end PlanMyKids

namespace PlanMyKids

/-! ## The crawl (`scrape`, `_crawl_page`, `_scrape_registration_page`)

`PageData` is what a successful fetch of one URL observes: the page's
`inner_text("body")` and its anchor elements.  The world (the site being
crawled plus the network) is a function `String → Option PageData`;
`none` models a fetch whose `page.goto`/content extraction raises (the
code catches the exception, prints and moves on).  A `BeautifulSoup`
object of a fetched page is always truthy here, so the `if soup and text`
test of `scrape` reduces to the text being nonempty.

`CrawlState` carries the fields of `self` and of `self.data` that the
crawl mutates, plus three observation logs that correspond to externally
visible events of the code: `fetchLog` records each `page.goto` attempt
of `_crawl_page` with the depth of its queue entry (the `Crawling (n/m)`
print), `failedFetches` counts the per-page exception handler runs (the
`Error crawling` print), `fieldRuns` records each run of the main-page
field-extractor block (the `Extracting main page data...` print), and
`regFetch` records the `page.goto` of `_scrape_registration_page`.  The
extractors for name/description/contact/address/hours/pricing/categories
mutate only fields of `self.data` that no claim here mentions, so the
model records their invocation and not their output. -/

/-- What one successful page fetch observes. -/
structure PageData where
  text : String
  anchors : List Anchor
deriving DecidableEq, Repr

/-- The fixed inputs of one crawl, including the environment. -/
structure Cfg where
  uj : String → String → String
  pySet : List String → List String
  today : PyNow
  world : String → Option PageData
  maxPages : Nat
  maxDepth : Nat
  crawl : Bool
  seed : String

/-- `self.domain` (line 23). -/
def Cfg.domain (c : Cfg) : String := (pyUrlparse c.seed).netloc

/-- `self.base_url` (line 24). -/
def Cfg.base (c : Cfg) : String :=
  (pyUrlparse c.seed).scheme ++ "://" ++ c.domain

/-- The mutable crawl state. -/
structure CrawlState where
  visited : List String
  pagesCrawled : Nat
  crawledPages : List String
  regUrl : Option String
  reDate : Option String
  newDate : Option String
  fetchLog : List (String × Nat)
  failedFetches : Nat
  fieldRuns : List String
  regFetch : Option String

/-- The state `__init__` sets up. -/
def initState : CrawlState := ⟨[], 0, [], none, none, none, [], 0, [], none⟩

/-- `_extract_registration_info` (lines 719-869): the anchor scan for the
registration URL followed by the two keyword-category date passes, all on
the current page's soup/text against the shared record. -/
def extractRegistrationInfo (today : PyNow) (seed : String)
    (pd : PageData) (st : CrawlState) : CrawlState :=
  let lower := pyLowerL pd.text.data
  { st with
    regUrl := extractRegUrl seed pd.anchors st.regUrl
    reDate := datePass today lower reEnrollmentKeywords st.reDate
    newDate := datePass today lower newRegistrationKeywords st.newDate }

/-- State change of a fetch attempt that raised (`_crawl_page` lines
176-177 and the `except` path): mark visited, count the attempt, log it,
count the failure. -/
def failState (st : CrawlState) (url : String) (depth : Nat) : CrawlState :=
  { st with
    visited := url :: st.visited
    pagesCrawled := st.pagesCrawled + 1
    fetchLog := st.fetchLog ++ [(url, depth)]
    failedFetches := st.failedFetches + 1 }

/-- State change of a successful fetch (`_crawl_page` lines 176-197):
mark visited, count the attempt, log it, append to `crawled_pages`. -/
def succState (st : CrawlState) (url : String) (depth : Nat) : CrawlState :=
  { st with
    visited := url :: st.visited
    pagesCrawled := st.pagesCrawled + 1
    fetchLog := st.fetchLog ++ [(url, depth)]
    crawledPages := st.crawledPages ++ [url] }

/-- `_crawl_page` (lines 165-203): the three guards, then mark visited,
count the attempt, fetch; on success extract and prioritize links
(against the visited set that already includes the current URL) and
append to `crawled_pages`; on an exception return nothing. -/
def crawlPage (cfg : Cfg) (st : CrawlState) (url : String) (depth : Nat) :
    CrawlState × Option PageData × List String :=
  if url ∈ st.visited then (st, none, [])
  else if cfg.maxPages ≤ st.pagesCrawled then (st, none, [])
  else if cfg.maxDepth < depth then (st, none, [])
  else
    match cfg.world url with
    | none => (failState st url depth, none, [])
    | some pd =>
      (succState st url depth, some pd,
       prioritizeLinks cfg.uj cfg.base cfg.seed pd.anchors
         (extractInternalLinks cfg.uj cfg.pySet cfg.base cfg.domain url
           (url :: st.visited) pd.anchors))

/-- Per-page state processing of `scrape` on a fetched page with nonempty
text (lines 255-268): run the field extractors when this was the first
fetch attempt (`pages_crawled == 1`), then the registration extractor. -/
def pageStep (cfg : Cfg) (url : String) (pd : PageData)
    (st1 : CrawlState) : CrawlState :=
  extractRegistrationInfo cfg.today cfg.seed pd
    (if st1.pagesCrawled = 1 then
      { st1 with fieldRuns := st1.fieldRuns ++ [url] }
    else st1)

/-- Link enqueueing of `scrape` (lines 270-274): when crawling is enabled
and the page is below the depth ceiling, append each not-yet-visited
discovered link at `depth + 1`. -/
def enqueueLinks (cfg : Cfg) (rest : List (String × Nat)) (depth : Nat)
    (links : List String) (st3 : CrawlState) : List (String × Nat) :=
  if cfg.crawl && depth < cfg.maxDepth then
    rest ++ (links.filter (fun l => !(decide (l ∈ st3.visited)))).map
      (fun l => (l, depth + 1))
  else rest

/-- The BFS loop of `scrape` (lines 239-279), fuel-indexed.  One fuel unit
is one iteration of the `while` loop; the invariant theorems hold for
every fuel, hence for the terminating run. -/
def crawlLoop (cfg : Cfg) : Nat → List (String × Nat) → CrawlState →
    CrawlState
  | 0, _, st => st
  | Nat.succ fuel, queue, st =>
    match queue with
    | [] => st
    | (url, depth) :: rest =>
      if st.pagesCrawled < cfg.maxPages then
        if url ∈ st.visited then crawlLoop cfg fuel rest st
        else
          match crawlPage cfg st url depth with
          | (st1, none, _) =>
            if st1.reDate.isSome && st1.newDate.isSome then st1
            else crawlLoop cfg fuel rest st1
          | (st1, some pd, links) =>
            if pd.text = "" then
              if st1.reDate.isSome && st1.newDate.isSome then st1
              else crawlLoop cfg fuel rest st1
            else
              if (pageStep cfg url pd st1).reDate.isSome &&
                  (pageStep cfg url pd st1).newDate.isSome then
                pageStep cfg url pd st1
              else crawlLoop cfg fuel
                (enqueueLinks cfg rest depth links (pageStep cfg url pd st1))
                (pageStep cfg url pd st1)
      else st

/-- `re_enrollment_keywords` of `_scrape_registration_page`
(lines 950-954): same contents as the main list. -/
def fbReEnrollmentKeywords : List String :=
  ["re-enrollment", "reenrollment", "re enrollment", "current students",
   "returning students", "current families", "priority registration",
   "early registration"]

/-- `new_registration_keywords` of `_scrape_registration_page`
(lines 957-963): unlike the main list it has no
`"returning students begins"` and adds four extra keywords. -/
def fbNewRegistrationKeywords : List String :=
  ["open enrollment", "new enrollment", "new students", "new families",
   "general registration", "public registration", "registration opens",
   "registration begins", "enrollment opens", "enrollment begins",
   "sign up", "register by", "enroll by", "deadline", "opens on",
   "begins on", "starts on"]

/-- `general_keywords` of the final pass of `_scrape_registration_page`
(line 994). -/
def generalKeywords : List String :=
  ["registration", "enrollment", "deadline", "opens", "begins", "start"]

/-- The context window of the generic pass (lines 999-1001):
`text_lower[max(0, idx-100) : idx+200]` (`max(0, idx-100)` is the
truncated subtraction on `Nat`). -/
def genericWindow (textLower : List Char) (i : Nat) : List Char :=
  (textLower.drop (i - 100)).take (i + 200 - (i - 100))

/-- The generic keyword loop (lines 995-1006): the context window spans
100 characters before and 200 after the keyword. -/
def scanGenericKeywords (today : PyNow) (textLower : List Char) :
    List String → Option PyDate
  | [] => none
  | kw :: rest =>
    match findSub kw.data textLower with
    | none => scanGenericKeywords today textLower rest
    | some i =>
      match parseDateFromContext today (genericWindow textLower i) with
      | some d => some d
      | none => scanGenericKeywords today textLower rest

/-- `_scrape_registration_page` (lines 871-1009): one direct fetch of the
registration URL; on success the two guarded keyword passes (a field
already set is left alone) and, if the new-registration date is still
missing, the generic pass.  A fetch error is caught and changes no
data. -/
def scrapeRegistrationPage (today : PyNow)
    (world : String → Option PageData) (st : CrawlState) : CrawlState :=
  match st.regUrl with
  | none => st
  | some ru =>
    let st0 := { st with regFetch := some ru }
    match world ru with
    | none => st0
    | some pd =>
      let lower := pyLowerL pd.text.data
      let re1 := if st0.reDate.isNone then
          datePass today lower fbReEnrollmentKeywords none
        else st0.reDate
      let new1 := if st0.newDate.isNone then
          datePass today lower fbNewRegistrationKeywords none
        else st0.newDate
      let new2 := if new1.isNone then
          match scanGenericKeywords today lower generalKeywords with
          | some d => some (formatDate d)
          | none => none
        else new1
      { st0 with reDate := re1, newDate := new2 }

/-- The post-crawl fallback dispatch of `scrape` (lines 282-285): only
when a registration URL exists, BOTH date fields are missing, and the URL
was never visited.  (A stored registration URL is never the empty string,
so Python's truthiness test is `isSome` here.) -/
def applyFallback (cfg : Cfg) (st : CrawlState) : CrawlState :=
  match st.regUrl with
  | none => st
  | some ru =>
    if st.reDate.isNone && st.newDate.isNone then
      if ru ∈ st.visited then st
      else scrapeRegistrationPage cfg.today cfg.world st
    else st

/-- The state after the BFS `while` loop of `scrape`. -/
def crawlResult (cfg : Cfg) (fuel : Nat) : CrawlState :=
  crawlLoop cfg fuel [(cfg.seed, 0)] initState

/-- `scrape(crawl=...)` (lines 205-299): the BFS loop followed by the
registration-page fallback; returns the final state. -/
def scrapeModel (cfg : Cfg) (fuel : Nat) : CrawlState :=
  applyFallback cfg (crawlResult cfg fuel)

end PlanMyKids

namespace PlanMyKids

/-! ## Soundness of date acceptance (support for C3) -/

theorem acceptFuture_future {today : PyNow} {o : Option PyDate}
    {d : PyDate} (h : acceptFuture today o = some d) :
    dateGeNowB d today = true := by
  cases o with
  | none => simp [acceptFuture] at h
  | some pd =>
    simp only [acceptFuture] at h
    split at h
    · cases h; assumption
    · exact absurd h (by simp)

theorem handleGroups_future {today : PyNow} {g : DateGroups} {d : PyDate}
    (h : handleGroups today g = some d) : dateGeNowB d today = true := by
  cases g with
  | g3 a b c =>
    simp only [handleGroups] at h
    split at h
    · exact absurd h (by simp)
    · split at h
      · exact absurd h (by simp)
      · exact acceptFuture_future h
  | g2 mo dd =>
    simp only [handleGroups] at h
    split at h
    · exact absurd h (by simp)
    · split at h
      · exact absurd h (by simp)
      · exact acceptFuture_future h

theorem parseGo_future {today : PyNow} {ctx : List Char} {d : PyDate} :
    ∀ ps, parseGo today ctx ps = some d → dateGeNowB d today = true := by
  intro ps
  induction ps with
  | nil => intro h; simp [parseGo] at h
  | cons p ps ih =>
    intro h
    simp only [parseGo] at h
    split at h
    · exact ih h
    · split at h
      · next d' heq => cases h; exact handleGroups_future heq
      · exact ih h

theorem parseDateFromContext_future {today : PyNow} {ctx : List Char}
    {d : PyDate} (h : parseDateFromContext today ctx = some d) :
    dateGeNowB d today = true :=
  parseGo_future _ h

theorem scanKeywords_future {today : PyNow} {textLower : List Char}
    {d : PyDate} :
    ∀ kws, scanKeywords today textLower kws = some d →
      dateGeNowB d today = true := by
  intro kws
  induction kws with
  | nil => intro h; simp [scanKeywords] at h
  | cons kw kws ih =>
    intro h
    simp only [scanKeywords] at h
    split at h
    · exact ih h
    · split at h
      · next d' heq => cases h; exact parseDateFromContext_future heq
      · exact ih h

theorem scanGenericKeywords_future {today : PyNow} {textLower : List Char}
    {d : PyDate} :
    ∀ kws, scanGenericKeywords today textLower kws = some d →
      dateGeNowB d today = true := by
  intro kws
  induction kws with
  | nil => intro h; exact Option.noConfusion h
  | cons kw kws ih =>
    intro h
    have h' : (match findSub kw.data textLower with
        | none => scanGenericKeywords today textLower kws
        | some i =>
          match parseDateFromContext today (genericWindow textLower i) with
          | some d => some d
          | none => scanGenericKeywords today textLower kws) = some d := h
    clear h
    rcases hf : findSub kw.data textLower with _ | i
    · rw [hf] at h'
      exact ih h'
    · rw [hf] at h'
      have h2 : (match parseDateFromContext today
            (genericWindow textLower i) with
          | some d => some d
          | none => scanGenericKeywords today textLower kws) = some d := h'
      clear h'
      rcases hp : parseDateFromContext today (genericWindow textLower i)
          with _ | d'
      · rw [hp] at h2
        exact ih h2
      · rw [hp] at h2
        cases h2
        exact parseDateFromContext_future hp

theorem datePass_sound {today : PyNow} {textLower : List Char}
    {kws : List String} {old : Option String} {s : String}
    (h : datePass today textLower kws old = some s) :
    old = some s ∨ ∃ d, dateGeNowB d today = true ∧ s = formatDate d := by
  simp only [datePass] at h
  split at h
  · next d heq =>
    exact Or.inr ⟨d, scanKeywords_future _ heq, (Option.some.inj h).symm⟩
  · exact Or.inl h

end PlanMyKids

namespace PlanMyKids

set_option maxRecDepth 400000

/-! ## Claims C3, C1, C5, C7 -/

/-- C3: every date `parse_date_from_context` accepts — and hence every
value the date extraction stores into `re_enrollment_date` or
`new_registration_date` — is not before the current date; a context whose
only matched date lies in the past ("march 1, 2020" with now June 15
2025, not midnight) yields no accepted date; a stored field value is
either the previous value or the rendering of an accepted (non-past)
date. -/
theorem registration_dates_never_past :
    (∀ (today : PyNow) (ctx : List Char) (d : PyDate),
      parseDateFromContext today ctx = some d →
      dateGeNowB d today = true)
    ∧ parseDateFromContext ⟨⟨2025, 6, 15⟩, false⟩ "march 1, 2020".data =
        none
    ∧ (∀ (today : PyNow) (text : String) (reIn newIn : Option String)
        (s : String),
        (extractRegistrationDates today text reIn newIn).1 = some s →
        reIn = some s ∨ ∃ d, dateGeNowB d today = true ∧ s = formatDate d)
    ∧ (∀ (today : PyNow) (text : String) (reIn newIn : Option String)
        (s : String),
        (extractRegistrationDates today text reIn newIn).2 = some s →
        newIn = some s ∨ ∃ d, dateGeNowB d today = true ∧ s = formatDate d)
    := by
  refine ⟨fun _ _ _ h => parseDateFromContext_future h, by decide, ?_, ?_⟩
  · intro today text reIn newIn s h
    exact datePass_sound h
  · intro today text reIn newIn s h
    exact datePass_sound h

/-- Witness for C3 at concrete inputs: "march 5, 2026" parses (now
June 1 2025) and the accepted date is in the future; storing it from a
page text produces the rendered date. -/
theorem registration_dates_never_past_witness :
    parseDateFromContext ⟨⟨2025, 6, 1⟩, false⟩ "march 5, 2026".data =
      some ⟨2026, 3, 5⟩
    ∧ dateGeNowB ⟨2026, 3, 5⟩ ⟨⟨2025, 6, 1⟩, false⟩ = true
    ∧ (extractRegistrationDates ⟨⟨2025, 6, 1⟩, false⟩
        "current students: march 5, 2026" none none).1 = some "2026-03-05"
    ∧ ((none : Option String) = some "2026-03-05" ∨
        ∃ d, dateGeNowB d ⟨⟨2025, 6, 1⟩, false⟩ = true ∧
          "2026-03-05" = formatDate d) :=
  ⟨by decide,
   registration_dates_never_past.1 ⟨⟨2025, 6, 1⟩, false⟩
     ("march 5, 2026".data) ⟨2026, 3, 5⟩ (by decide), by decide,
   registration_dates_never_past.2.2.1 ⟨⟨2025, 6, 1⟩, false⟩
     "current students: march 5, 2026" none none "2026-03-05" (by decide)⟩

/-- C1 (counterexample): `_extract_registration_info` has no already-set
guard on its date assignments — a first page sets
`re_enrollment_date = 2026-01-15`, and feeding a second page whose text
yields a different valid future date for the same category replaces it
with `2026-02-20`. -/
theorem re_enrollment_date_overwritten :
    (extractRegistrationDates ⟨⟨2025, 6, 1⟩, false⟩
        "priority registration january 15, 2026" none none).1 =
      some "2026-01-15"
    ∧ (extractRegistrationDates ⟨⟨2025, 6, 1⟩, false⟩
        "priority registration february 20, 2026"
        (some "2026-01-15") none).1 = some "2026-02-20"
    ∧ (some "2026-02-20" : Option String) ≠ some "2026-01-15" :=
  ⟨by decide, by decide, by decide⟩

/-- C1 (amended): write-once semantics holds only in the post-crawl
registration-page pass, whose category passes are guarded by
`if not self.data[...]`: a date field that is already set when
`_scrape_registration_page` runs is never changed by it.  (During normal
crawling the extractor overwrites, as the counterexample shows.) -/
theorem fallback_pass_preserves_set_dates (today : PyNow)
    (world : String → Option PageData) (st : CrawlState) (v w : String) :
    (st.reDate = some v →
      (scrapeRegistrationPage today world st).reDate = some v)
    ∧ (st.newDate = some w →
      (scrapeRegistrationPage today world st).newDate = some w) := by
  refine ⟨fun h => ?_, fun h => ?_⟩
  · cases hr : st.regUrl with
    | none => simp only [scrapeRegistrationPage, hr]; exact h
    | some ru =>
      simp only [scrapeRegistrationPage, hr]
      cases hw : world ru with
      | none => exact h
      | some pd => simp [h]
  · cases hr : st.regUrl with
    | none => simp only [scrapeRegistrationPage, hr]; exact h
    | some ru =>
      simp only [scrapeRegistrationPage, hr]
      cases hw : world ru with
      | none => exact h
      | some pd => simp [h]

/-- Witness for the amended C1: a state with both dates set is untouched
by a fallback fetch of a page full of other parsable dates. -/
def bothDatesSetState : CrawlState :=
  { initState with
      reDate := some "2026-01-15"
      newDate := some "2026-02-01"
      regUrl := some "https://camp.example/register" }

theorem fallback_pass_preserves_set_dates_witness :
    bothDatesSetState.reDate = some "2026-01-15"
    ∧ (scrapeRegistrationPage ⟨⟨2025, 6, 1⟩, false⟩
        (fun _ => some ⟨"current students: march 5, 2026", []⟩)
        bothDatesSetState).reDate = some "2026-01-15" :=
  ⟨rfl,
   (fallback_pass_preserves_set_dates ⟨⟨2025, 6, 1⟩, false⟩
      (fun _ => some ⟨"current students: march 5, 2026", []⟩)
      bothDatesSetState "2026-01-15" "2026-02-01").1 rfl⟩

end PlanMyKids

namespace PlanMyKids

/-- A two-page site: the seed page carries a `/register` anchor and a
link to the register page, which itself carries an `/enroll` anchor. -/
def siteTwoRegAnchors : String → Option PageData := fun u =>
  if u = "https://s.ex" then some ⟨"hi", [⟨"/register", "Register"⟩]⟩
  else if u = "https://s.ex/register" then
    some ⟨"welcome", [⟨"/enroll", "Enroll"⟩]⟩
  else none

/-- C5 (counterexample): with the page budget cut to 1 the crawl ends
with `registration_url = https://s.ex/register` (the earliest page's
first match), but the same crawl with budget 5 visits the second page,
whose match `https://s.ex/enroll` replaces the already-set value during
normal crawling — `_extract_registration_info` re-derives and overwrites
it on every page that has a match. -/
theorem registration_url_replaced_by_later_page :
    (scrapeModel ⟨fun _ r => r, fun l => l, ⟨⟨2025, 6, 1⟩, false⟩,
        siteTwoRegAnchors, 1, 1, true, "https://s.ex"⟩ 10).regUrl =
      some "https://s.ex/register"
    ∧ (scrapeModel ⟨fun _ r => r, fun l => l, ⟨⟨2025, 6, 1⟩, false⟩,
        siteTwoRegAnchors, 5, 1, true, "https://s.ex"⟩ 10).regUrl =
      some "https://s.ex/enroll"
    ∧ ("https://s.ex/enroll" : String) ≠ "https://s.ex/register" :=
  ⟨by decide, by decide, by decide⟩

/-- C5 (amended): within one page the first anchor (in document order)
whose href or text matches a registration keyword and which resolves
becomes `registration_url` — overwriting whatever value was stored
before, whether from this crawl's earlier pages or not. -/
theorem registration_url_first_match_per_page (seed : String)
    (old : Option String) (pre post : List Anchor) (a : Anchor)
    (u : String)
    (hpre : ∀ x ∈ pre, anchorRegResolve seed x = none)
    (ha : anchorRegResolve seed a = some u) :
    extractRegUrl seed (pre ++ a :: post) old = some u := by
  induction pre with
  | nil => simp only [List.nil_append, extractRegUrl, ha]
  | cons x xs ih =>
    simp only [List.cons_append, extractRegUrl]
    rw [hpre x (List.mem_cons_self x xs)]
    exact ih (fun y hy => hpre y (List.mem_cons_of_mem x hy))

/-- Witness for the amended C5: a non-matching anchor is skipped, and the
first matching one overwrites an older stored URL. -/
theorem registration_url_first_match_per_page_witness :
    (∀ x ∈ [(⟨"/about", "About"⟩ : Anchor)],
      anchorRegResolve "https://example.org/" x = none)
    ∧ anchorRegResolve "https://example.org/" ⟨"/register", "Register Now"⟩
        = some "https://example.org/register"
    ∧ extractRegUrl "https://example.org/"
        ([⟨"/about", "About"⟩] ++ ⟨"/register", "Register Now"⟩ ::
          [⟨"/signup", "x"⟩]) (some "https://old.example/reg") =
      some "https://example.org/register" :=
  ⟨by decide, by decide,
   registration_url_first_match_per_page "https://example.org/"
     (some "https://old.example/reg") [⟨"/about", "About"⟩]
     [⟨"/signup", "x"⟩] ⟨"/register", "Register Now"⟩
     "https://example.org/register" (by decide) (by decide)⟩

end PlanMyKids

namespace PlanMyKids

/-- The accumulator loop of `_prioritize_links` is a stable partition of
its input list. -/
theorem prioritizeGo_eq_filter (pairs : List (String × String)) :
    ∀ (ls regAcc othAcc : List String),
      prioritizeGo pairs ls regAcc othAcc =
        (regAcc ++ ls.filter
          (fun l => isRegistrationRelated l (dictGet pairs l))) ++
        (othAcc ++ ls.filter
          (fun l => !(isRegistrationRelated l (dictGet pairs l)))) := by
  intro ls
  induction ls with
  | nil => intro regAcc othAcc; simp [prioritizeGo]
  | cons l ls ih =>
    intro regAcc othAcc
    simp only [prioritizeGo]
    by_cases hl : isRegistrationRelated l (dictGet pairs l) = true
    · rw [if_pos hl, ih]
      simp [List.filter_cons, hl]
    · rw [if_neg hl, ih]
      simp [List.filter_cons, hl]
end PlanMyKids

namespace PlanMyKids

/-- C7 (amended): `_prioritize_links` is a stable partition of its input
list — registration-related candidates first, each group in the order of
the *input* list — and, for any enumeration order of `list(set(...))`
(any `pySet` that deduplicates and preserves membership), the pipeline
output is duplicate-free and holds exactly the discovered candidates.
The within-group order follows the set's enumeration order, which is not
the page's discovery order (see the counterexample). -/
theorem prioritization_stable_partition :
    (∀ (uj : String → String → String) (base seed : String)
      (anchors : List Anchor) (links : List String),
      prioritizeLinks uj base seed anchors links =
        links.filter (fun l => isRegistrationRelated l
          (dictGet (linkTextPairs uj base seed anchors) l))
        ++ links.filter (fun l => !(isRegistrationRelated l
          (dictGet (linkTextPairs uj base seed anchors) l))))
    ∧ (∀ (uj : String → String → String)
        (pySet : List String → List String)
        (base domain seed currentUrl : String) (visited : List String)
        (anchors : List Anchor),
        (∀ l : List String, (pySet l).Nodup) →
        (∀ (l : List String) (x : String), x ∈ pySet l ↔ x ∈ l) →
        (prioritizeLinks uj base seed anchors (extractInternalLinks uj
          pySet base domain currentUrl visited anchors)).Nodup
        ∧ ∀ x, (x ∈ prioritizeLinks uj base seed anchors
            (extractInternalLinks uj pySet base domain currentUrl visited
              anchors) ↔
          x ∈ extractLinksGo uj base domain currentUrl visited anchors))
    := by
  have key : ∀ (uj : String → String → String) (base seed : String)
      (anchors : List Anchor) (links : List String),
      prioritizeLinks uj base seed anchors links =
        links.filter (fun l => isRegistrationRelated l
          (dictGet (linkTextPairs uj base seed anchors) l))
        ++ links.filter (fun l => !(isRegistrationRelated l
          (dictGet (linkTextPairs uj base seed anchors) l))) := by
    intro uj base seed anchors links
    simpa using
      prioritizeGo_eq_filter (linkTextPairs uj base seed anchors) links [] []
  refine ⟨key, ?_⟩
  intro uj pySet base domain seed currentUrl visited anchors hnd hmem
  have hperm := List.filter_append_perm
    (fun l => isRegistrationRelated l
      (dictGet (linkTextPairs uj base seed anchors) l))
    (pySet (extractLinksGo uj base domain currentUrl visited anchors))
  have h1 := key uj base seed anchors
    (pySet (extractLinksGo uj base domain currentUrl visited anchors))
  constructor
  · show (prioritizeLinks uj base seed anchors
      (pySet (extractLinksGo uj base domain currentUrl visited
        anchors))).Nodup
    rw [h1]
    exact hperm.nodup_iff.mpr (hnd _)
  · intro x
    show x ∈ prioritizeLinks uj base seed anchors
        (pySet (extractLinksGo uj base domain currentUrl visited anchors))
      ↔ _
    rw [h1, hperm.mem_iff]
    exact hmem _ x

/-- Four same-domain absolute links, the first and third
registration-related. -/
def fourLinkAnchors : List Anchor :=
  [⟨"https://x.ex/register", ""⟩, ⟨"https://x.ex/team", ""⟩,
   ⟨"https://x.ex/classes", ""⟩, ⟨"https://x.ex/blog", ""⟩]

/-- C7 (counterexample): the discovered candidates are
`[register, team, classes, blog]` in page order, but the dedup step is
`list(set(links))`, whose enumeration order is implementation-defined
(string hashing is randomized per process).  Reversal is one
membership-preserving, duplicate-free enumeration, and under it the
pipeline emits `[classes, register, blog, team]` — not the claimed
`[register, classes, team, blog]` (groups in discovery order). -/
theorem prioritization_not_discovery_order :
    extractLinksGo (fun _ r => r) "https://x.ex" "x.ex" "https://x.ex" []
        fourLinkAnchors =
      ["https://x.ex/register", "https://x.ex/team",
       "https://x.ex/classes", "https://x.ex/blog"]
    ∧ (["https://x.ex/register", "https://x.ex/team",
        "https://x.ex/classes", "https://x.ex/blog"] :
        List String).reverse.Nodup
    ∧ (["https://x.ex/register", "https://x.ex/team",
        "https://x.ex/classes", "https://x.ex/blog"] :
        List String).reverse.Perm
        ["https://x.ex/register", "https://x.ex/team",
         "https://x.ex/classes", "https://x.ex/blog"]
    ∧ prioritizeLinks (fun _ r => r) "https://x.ex" "https://x.ex"
        fourLinkAnchors
        (extractInternalLinks (fun _ r => r) List.reverse "https://x.ex"
          "x.ex" "https://x.ex" [] fourLinkAnchors) =
      ["https://x.ex/classes", "https://x.ex/register",
       "https://x.ex/blog", "https://x.ex/team"]
    ∧ (["https://x.ex/classes", "https://x.ex/register",
        "https://x.ex/blog", "https://x.ex/team"] : List String) ≠
      ["https://x.ex/register", "https://x.ex/classes",
       "https://x.ex/team", "https://x.ex/blog"] :=
  ⟨by decide, by decide, by decide, by decide, by decide⟩

/-- Witness for the amended C7 at a concrete dedup order
(`List.dedup`). -/
theorem prioritization_stable_partition_witness :
    (prioritizeLinks (fun _ r => r) "https://x.ex" "https://x.ex"
      fourLinkAnchors
      (extractInternalLinks (fun _ r => r) (fun l => l.dedup)
        "https://x.ex" "x.ex" "https://x.ex" [] fourLinkAnchors)).Nodup :=
  (prioritization_stable_partition.2 (fun _ r => r) (fun l => l.dedup)
    "https://x.ex" "x.ex" "https://x.ex" "https://x.ex" [] fourLinkAnchors
    (fun l => l.nodup_dedup) (fun l _ => l.mem_dedup)).1

end PlanMyKids

namespace PlanMyKids

/-! ## The crawl-loop invariant (support for C2, C4, C8, C10) -/

/-- Invariant carried through every iteration of the BFS loop. -/
structure LoopInv (cfg : Cfg) (st : CrawlState) : Prop where
  pagesLe : st.pagesCrawled ≤ cfg.maxPages
  fetchDepth : ∀ p ∈ st.fetchLog, p.2 ≤ cfg.maxDepth
  crawledNodup : st.crawledPages.Nodup
  crawledVisited : ∀ u ∈ st.crawledPages, u ∈ st.visited
  pagesEq : st.pagesCrawled = st.crawledPages.length + st.failedFetches
  crawledOk : ∀ u ∈ st.crawledPages, cfg.world u ≠ none
  fetchVisited : ∀ p ∈ st.fetchLog, p.1 ∈ st.visited
  fetchNodup : (st.fetchLog.map Prod.fst).Nodup
  fieldLen : st.fieldRuns.length ≤ 1
  fieldZero : st.pagesCrawled = 0 → st.fieldRuns = []
  fieldHead : ∀ u ∈ st.fieldRuns, st.crawledPages.head? = some u
  regFetchNone : st.regFetch = none

theorem loopInv_init (cfg : Cfg) : LoopInv cfg initState := by
  refine ⟨?_, ?_, ?_, ?_, ?_, ?_, ?_, ?_, ?_, ?_, ?_, ?_⟩
    <;> simp [initState]

/-- `_extract_registration_info` touches only `regUrl`/`reDate`/`newDate`,
so it preserves the loop invariant. -/
theorem loopInv_extract (cfg : Cfg) (st : CrawlState) (pd : PageData)
    (h : LoopInv cfg st) :
    LoopInv cfg (extractRegistrationInfo cfg.today cfg.seed pd st) :=
  ⟨h.pagesLe, h.fetchDepth, h.crawledNodup, h.crawledVisited, h.pagesEq,
   h.crawledOk, h.fetchVisited, h.fetchNodup, h.fieldLen, h.fieldZero,
   h.fieldHead, h.regFetchNone⟩

/-- Invariant after a fetch attempt that raised (`except` path of
`_crawl_page`). -/
theorem loopInv_fetchFail (cfg : Cfg) (st : CrawlState) (url : String)
    (depth : Nat) (h : LoopInv cfg st) (hv : url ∉ st.visited)
    (hpc : st.pagesCrawled < cfg.maxPages) (hd : depth ≤ cfg.maxDepth) :
    LoopInv cfg (failState st url depth) := by
  unfold failState
  refine ⟨hpc, ?_, h.crawledNodup, ?_, ?_, h.crawledOk, ?_, ?_,
    h.fieldLen, ?_, h.fieldHead, h.regFetchNone⟩
  · intro p hp
    rcases List.mem_append.mp hp with hp | hp
    · exact h.fetchDepth p hp
    · rw [List.mem_singleton] at hp
      subst hp
      exact hd
  · intro u hu
    exact List.mem_cons_of_mem _ (h.crawledVisited u hu)
  · show st.pagesCrawled + 1 =
      st.crawledPages.length + (st.failedFetches + 1)
    have := h.pagesEq
    omega
  · intro p hp
    rcases List.mem_append.mp hp with hp | hp
    · exact List.mem_cons_of_mem _ (h.fetchVisited p hp)
    · rw [List.mem_singleton] at hp
      subst hp
      exact List.mem_cons_self _ _
  · show ((st.fetchLog ++ [(url, depth)]).map Prod.fst).Nodup
    rw [List.map_append]
    refine List.Nodup.append h.fetchNodup (List.nodup_singleton _) ?_
    intro a ha hb
    rw [List.map_singleton, List.mem_singleton] at hb
    subst hb
    rcases List.mem_map.mp ha with ⟨p, hp, hfst⟩
    exact hv (hfst ▸ h.fetchVisited p hp)
  · intro hzero
    exact absurd hzero (Nat.succ_ne_zero _)

/-- Invariant after a successful fetch (the `try` body of `_crawl_page`
ran to the end). -/
theorem loopInv_fetchSucc (cfg : Cfg) (st : CrawlState) (url : String)
    (depth : Nat) (pd : PageData) (h : LoopInv cfg st)
    (hv : url ∉ st.visited) (hpc : st.pagesCrawled < cfg.maxPages)
    (hd : depth ≤ cfg.maxDepth) (hw : cfg.world url = some pd) :
    LoopInv cfg (succState st url depth) := by
  unfold succState
  refine ⟨hpc, ?_, ?_, ?_, ?_, ?_, ?_, ?_, h.fieldLen, ?_, ?_,
    h.regFetchNone⟩
  · intro p hp
    rcases List.mem_append.mp hp with hp | hp
    · exact h.fetchDepth p hp
    · rw [List.mem_singleton] at hp
      subst hp
      exact hd
  · show (st.crawledPages ++ [url]).Nodup
    refine List.Nodup.append h.crawledNodup (List.nodup_singleton _) ?_
    intro a ha hb
    rw [List.mem_singleton] at hb
    subst hb
    exact hv (h.crawledVisited a ha)
  · intro u hu
    rcases List.mem_append.mp hu with hu | hu
    · exact List.mem_cons_of_mem _ (h.crawledVisited u hu)
    · rw [List.mem_singleton] at hu
      subst hu
      exact List.mem_cons_self _ _
  · show st.pagesCrawled + 1 =
      (st.crawledPages ++ [url]).length + st.failedFetches
    rw [List.length_append]
    have := h.pagesEq
    simp
    omega
  · intro u hu
    rcases List.mem_append.mp hu with hu | hu
    · exact h.crawledOk u hu
    · rw [List.mem_singleton] at hu
      subst hu
      rw [hw]
      exact Option.noConfusion
  · intro p hp
    rcases List.mem_append.mp hp with hp | hp
    · exact List.mem_cons_of_mem _ (h.fetchVisited p hp)
    · rw [List.mem_singleton] at hp
      subst hp
      exact List.mem_cons_self _ _
  · show ((st.fetchLog ++ [(url, depth)]).map Prod.fst).Nodup
    rw [List.map_append]
    refine List.Nodup.append h.fetchNodup (List.nodup_singleton _) ?_
    intro a ha hb
    rw [List.map_singleton, List.mem_singleton] at hb
    subst hb
    rcases List.mem_map.mp ha with ⟨p, hp, hfst⟩
    exact hv (hfst ▸ h.fetchVisited p hp)
  · intro hzero
    exact absurd hzero (Nat.succ_ne_zero _)
  · intro u hu
    have hh := h.fieldHead u hu
    show (st.crawledPages ++ [url]).head? = some u
    cases hcp : st.crawledPages with
    | nil => rw [hcp] at hh; exact Option.noConfusion hh
    | cons a l =>
      rw [hcp] at hh
      simpa using hh

end PlanMyKids

namespace PlanMyKids

/-- Invariant after the field-extractor block ran on the first fetched
page (possible only when no page had been attempted before). -/
theorem loopInv_fieldRun (cfg : Cfg) (st : CrawlState) (url : String)
    (depth : Nat) (pd : PageData) (h : LoopInv cfg st)
    (hv : url ∉ st.visited) (hpc : st.pagesCrawled < cfg.maxPages)
    (hd : depth ≤ cfg.maxDepth) (hw : cfg.world url = some pd)
    (hzero : st.pagesCrawled = 0) :
    LoopInv cfg { succState st url depth with
      fieldRuns := (succState st url depth).fieldRuns ++ [url] } := by
  have h1 := loopInv_fetchSucc cfg st url depth pd h hv hpc hd hw
  have hcp0 : st.crawledPages = [] :=
    List.length_eq_zero.mp (by have := h.pagesEq; omega)
  have hfr0 : st.fieldRuns = [] := h.fieldZero hzero
  refine ⟨h1.pagesLe, h1.fetchDepth, h1.crawledNodup, h1.crawledVisited,
    h1.pagesEq, h1.crawledOk, h1.fetchVisited, h1.fetchNodup, ?_, ?_, ?_,
    h1.regFetchNone⟩
  · show (st.fieldRuns ++ [url]).length ≤ 1
    rw [hfr0]
    simp
  · intro hz
    exact absurd hz (show st.pagesCrawled + 1 ≠ 0 by omega)
  · intro u hu
    have hu' : u ∈ st.fieldRuns ++ [url] := hu
    rw [hfr0, List.nil_append, List.mem_singleton] at hu'
    show (st.crawledPages ++ [url]).head? = some u
    rw [hcp0, hu']
    rfl

/-- Invariant after the whole per-page processing of one successfully
fetched page. -/
theorem loopInv_pageStep (cfg : Cfg) (st : CrawlState) (url : String)
    (depth : Nat) (pd : PageData) (h : LoopInv cfg st)
    (hv : url ∉ st.visited) (hpc : st.pagesCrawled < cfg.maxPages)
    (hd : depth ≤ cfg.maxDepth) (hw : cfg.world url = some pd) :
    LoopInv cfg (pageStep cfg url pd (succState st url depth)) := by
  unfold pageStep
  by_cases hone : (succState st url depth).pagesCrawled = 1
  · rw [if_pos hone]
    refine loopInv_extract cfg _ pd ?_
    refine loopInv_fieldRun cfg st url depth pd h hv hpc hd hw ?_
    have hone' : st.pagesCrawled + 1 = 1 := hone
    omega
  · rw [if_neg hone]
    exact loopInv_extract cfg _ pd
      (loopInv_fetchSucc cfg st url depth pd h hv hpc hd hw)

/-- The per-page processing appends at most `[url]` to the
field-extractor log. -/
theorem pageStep_fieldRuns (cfg : Cfg) (url : String) (pd : PageData)
    (st1 : CrawlState) :
    ∃ e, (pageStep cfg url pd st1).fieldRuns = st1.fieldRuns ++ e := by
  unfold pageStep
  by_cases hone : st1.pagesCrawled = 1
  · rw [if_pos hone]
    exact ⟨[url], rfl⟩
  · rw [if_neg hone]
    exact ⟨[], (List.append_nil _).symm⟩

end PlanMyKids

namespace PlanMyKids

/-- The loop invariant holds after any number of BFS iterations, and the
field-extractor log only ever grows. -/
theorem crawlLoop_inv (cfg : Cfg) :
    ∀ (fuel : Nat) (queue : List (String × Nat)) (st : CrawlState),
      LoopInv cfg st →
      LoopInv cfg (crawlLoop cfg fuel queue st) ∧
      ∃ ext, (crawlLoop cfg fuel queue st).fieldRuns =
        st.fieldRuns ++ ext := by
  intro fuel
  induction fuel with
  | zero =>
    intro queue st h
    exact ⟨h, [], (List.append_nil _).symm⟩
  | succ fuel ih =>
    intro queue st h
    rcases queue with _ | ⟨⟨url, depth⟩, rest⟩
    · exact ⟨h, [], (List.append_nil _).symm⟩
    by_cases hpc : st.pagesCrawled < cfg.maxPages
    swap
    · rw [show crawlLoop cfg (fuel + 1) ((url, depth) :: rest) st = st
        from by simp [crawlLoop, hpc]]
      exact ⟨h, [], (List.append_nil _).symm⟩
    by_cases hv : url ∈ st.visited
    · rw [show crawlLoop cfg (fuel + 1) ((url, depth) :: rest) st =
          crawlLoop cfg fuel rest st from by simp [crawlLoop, hpc, hv]]
      exact ih rest st h
    have hple : ¬ cfg.maxPages ≤ st.pagesCrawled := Nat.not_le.mpr hpc
    by_cases hd : cfg.maxDepth < depth
    · have hcp : crawlPage cfg st url depth = (st, none, []) := by
        unfold crawlPage
        rw [if_neg hv, if_neg hple, if_pos hd]
      rw [show crawlLoop cfg (fuel + 1) ((url, depth) :: rest) st =
          (if st.reDate.isSome && st.newDate.isSome then st
           else crawlLoop cfg fuel rest st) from by
        simp only [crawlLoop]
        rw [if_pos hpc, if_neg hv, hcp]]
      by_cases hb : st.reDate.isSome && st.newDate.isSome
      · rw [if_pos hb]
        exact ⟨h, [], (List.append_nil _).symm⟩
      · rw [if_neg hb]
        exact ih rest st h
    have hdle : depth ≤ cfg.maxDepth := Nat.not_lt.mp hd
    cases hw : cfg.world url with
    | none =>
      have hcp : crawlPage cfg st url depth =
          (failState st url depth, none, []) := by
        unfold crawlPage
        rw [if_neg hv, if_neg hple, if_neg hd, hw]
      have h1 : LoopInv cfg (failState st url depth) :=
        loopInv_fetchFail cfg st url depth h hv hpc hdle
      rw [show crawlLoop cfg (fuel + 1) ((url, depth) :: rest) st =
          (if (failState st url depth).reDate.isSome &&
              (failState st url depth).newDate.isSome then
            failState st url depth
          else crawlLoop cfg fuel rest (failState st url depth)) from by
        simp only [crawlLoop]
        rw [if_pos hpc, if_neg hv, hcp]]
      by_cases hb : (failState st url depth).reDate.isSome &&
          (failState st url depth).newDate.isSome
      · rw [if_pos hb]
        exact ⟨h1, [], (List.append_nil _).symm⟩
      · rw [if_neg hb]
        rcases ih rest _ h1 with ⟨hinv, ext, hext⟩
        exact ⟨hinv, ext, hext⟩
    | some pd =>
      have hcp : crawlPage cfg st url depth =
          (succState st url depth, some pd,
           prioritizeLinks cfg.uj cfg.base cfg.seed pd.anchors
             (extractInternalLinks cfg.uj cfg.pySet cfg.base cfg.domain url
               (url :: st.visited) pd.anchors)) := by
        unfold crawlPage
        rw [if_neg hv, if_neg hple, if_neg hd, hw]
      have h1 : LoopInv cfg (succState st url depth) :=
        loopInv_fetchSucc cfg st url depth pd h hv hpc hdle hw
      rw [show crawlLoop cfg (fuel + 1) ((url, depth) :: rest) st =
          (if pd.text = "" then
            (if (succState st url depth).reDate.isSome &&
                (succState st url depth).newDate.isSome then
              succState st url depth
            else crawlLoop cfg fuel rest (succState st url depth))
          else
            (if (pageStep cfg url pd (succState st url depth)).reDate.isSome
                && (pageStep cfg url pd
                  (succState st url depth)).newDate.isSome
              then pageStep cfg url pd (succState st url depth)
            else crawlLoop cfg fuel
              (enqueueLinks cfg rest depth
                (prioritizeLinks cfg.uj cfg.base cfg.seed pd.anchors
                  (extractInternalLinks cfg.uj cfg.pySet cfg.base cfg.domain
                    url (url :: st.visited) pd.anchors))
                (pageStep cfg url pd (succState st url depth)))
              (pageStep cfg url pd (succState st url depth)))) from by
        simp only [crawlLoop]
        rw [if_pos hpc, if_neg hv, hcp]]
      by_cases htext : pd.text = ""
      · rw [if_pos htext]
        by_cases hb : (succState st url depth).reDate.isSome &&
            (succState st url depth).newDate.isSome
        · rw [if_pos hb]
          exact ⟨h1, [], (List.append_nil _).symm⟩
        · rw [if_neg hb]
          rcases ih rest _ h1 with ⟨hinv, ext, hext⟩
          exact ⟨hinv, ext, hext⟩
      · rw [if_neg htext]
        have h3 : LoopInv cfg (pageStep cfg url pd (succState st url depth)) :=
          loopInv_pageStep cfg st url depth pd h hv hpc hdle hw
        rcases pageStep_fieldRuns cfg url pd (succState st url depth)
          with ⟨e0, he0⟩
        by_cases hb : (pageStep cfg url pd (succState st url depth)).reDate.isSome &&
            (pageStep cfg url pd (succState st url depth)).newDate.isSome
        · rw [if_pos hb]
          exact ⟨h3, e0, he0⟩
        · rw [if_neg hb]
          rcases ih (enqueueLinks cfg rest depth
              (prioritizeLinks cfg.uj cfg.base cfg.seed pd.anchors
                (extractInternalLinks cfg.uj cfg.pySet cfg.base cfg.domain
                  url (url :: st.visited) pd.anchors)) _) _ h3
            with ⟨hinv, ext, hext⟩
          refine ⟨hinv, e0 ++ ext, ?_⟩
          rw [hext, he0, List.append_assoc]
          rfl

end PlanMyKids

namespace PlanMyKids

/-- `crawlLoop` with an empty frontier returns the state unchanged. -/
theorem crawlLoop_nil (cfg : Cfg) (fuel : Nat) (st : CrawlState) :
    crawlLoop cfg fuel [] st = st := by
  cases fuel <;> rfl

/-- The post-crawl fallback touches only `regFetch`, `reDate` and
`newDate`. -/
theorem applyFallback_preserves (cfg : Cfg) (st : CrawlState) :
    (applyFallback cfg st).visited = st.visited ∧
    (applyFallback cfg st).pagesCrawled = st.pagesCrawled ∧
    (applyFallback cfg st).crawledPages = st.crawledPages ∧
    (applyFallback cfg st).fetchLog = st.fetchLog ∧
    (applyFallback cfg st).failedFetches = st.failedFetches ∧
    (applyFallback cfg st).fieldRuns = st.fieldRuns ∧
    (applyFallback cfg st).regUrl = st.regUrl := by
  unfold applyFallback
  split
  · exact ⟨rfl, rfl, rfl, rfl, rfl, rfl, rfl⟩
  · split
    · split
      · exact ⟨rfl, rfl, rfl, rfl, rfl, rfl, rfl⟩
      · unfold scrapeRegistrationPage
        split
        · exact ⟨rfl, rfl, rfl, rfl, rfl, rfl, rfl⟩
        · split
          · exact ⟨rfl, rfl, rfl, rfl, rfl, rfl, rfl⟩
          · exact ⟨rfl, rfl, rfl, rfl, rfl, rfl, rfl⟩
    · exact ⟨rfl, rfl, rfl, rfl, rfl, rfl, rfl⟩

end PlanMyKids

namespace PlanMyKids

/-! ## Claims C2, C8, C10 -/

/-- C2: with a positive page budget, at every point of the BFS
`pages_crawled ≤ max_pages`, and no fetch is issued from a queue entry
whose depth exceeds `max_depth` (every `page.goto` of `_crawl_page` is
logged in `fetchLog` with its queue depth). -/
theorem crawl_within_budgets (cfg : Cfg) (fuel : Nat)
    (_hmp : 0 < cfg.maxPages) :
    (scrapeModel cfg fuel).pagesCrawled ≤ cfg.maxPages
    ∧ ∀ p ∈ (scrapeModel cfg fuel).fetchLog, p.2 ≤ cfg.maxDepth := by
  have hinv := (crawlLoop_inv cfg fuel [(cfg.seed, 0)] initState
    (loopInv_init cfg)).1
  have hp := applyFallback_preserves cfg (crawlResult cfg fuel)
  constructor
  · rw [show (scrapeModel cfg fuel).pagesCrawled =
        (crawlResult cfg fuel).pagesCrawled from hp.2.1]
    exact hinv.pagesLe
  · intro p hmem
    refine hinv.fetchDepth p ?_
    rw [show (scrapeModel cfg fuel).fetchLog =
        (crawlResult cfg fuel).fetchLog from hp.2.2.2.1] at hmem
    exact hmem

/-- A two-page site whose second URL is the seed minus its trailing
slash, reachable through an anchor `href="/"`. -/
def siteSlashAlias : String → Option PageData := fun u =>
  if u = "https://ex.org/" then some ⟨"hello", [⟨"/", ""⟩]⟩
  else if u = "https://ex.org" then some ⟨"hello", []⟩ else none

/-- A concrete two-page crawl configuration over `siteSlashAlias`. -/
def cfgSlash : Cfg :=
  ⟨fun _ r => r, fun l => l, ⟨⟨2025, 6, 1⟩, false⟩, siteSlashAlias, 5, 2,
   true, "https://ex.org/"⟩

/-- Witness for C2 at a concrete crawl: the budgets hold, and the
depth-1 fetch of the discovered link respects `maxDepth = 2`. -/
theorem crawl_within_budgets_witness :
    0 < cfgSlash.maxPages
    ∧ (scrapeModel cfgSlash 10).pagesCrawled ≤ cfgSlash.maxPages
    ∧ ("https://ex.org", 1) ∈ (scrapeModel cfgSlash 10).fetchLog
    ∧ 1 ≤ cfgSlash.maxDepth :=
  ⟨by decide, (crawl_within_budgets cfgSlash 10 (by decide)).1, by decide,
   (crawl_within_budgets cfgSlash 10 (by decide)).2 ("https://ex.org", 1)
     (by decide)⟩

/-- C8 (counterexample): the seed is enqueued and recorded raw, not
normalized — on `siteSlashAlias` the crawl fetches both
`https://ex.org/` (the seed, with trailing slash) and `https://ex.org`
(a discovered link), two entries of `crawled_pages` with the same
normalized form. -/
theorem seed_refetched_modulo_normalization :
    (scrapeModel cfgSlash 10).crawledPages =
      ["https://ex.org/", "https://ex.org"]
    ∧ normalizeUrl "https://ex.org/" = normalizeUrl "https://ex.org"
    ∧ ("https://ex.org/" : String) ≠ "https://ex.org" :=
  ⟨by decide, by decide, by decide⟩

/-- C8 (amended): no URL is ever fetched twice by exact string
comparison — `crawled_pages` and the fetch log are duplicate-free.
Deduplication by normalized form holds for discovered links (they are
stored normalized), but the seed enters the queue and the visited set
unnormalized, so a crawl may fetch the seed and an equivalent discovered
link differing only by a trailing slash or fragment (see the
counterexample). -/
theorem no_exact_duplicate_fetch (cfg : Cfg) (fuel : Nat) :
    (scrapeModel cfg fuel).crawledPages.Nodup
    ∧ ((scrapeModel cfg fuel).fetchLog.map Prod.fst).Nodup := by
  have hinv := (crawlLoop_inv cfg fuel [(cfg.seed, 0)] initState
    (loopInv_init cfg)).1
  have hp := applyFallback_preserves cfg (crawlResult cfg fuel)
  constructor
  · rw [show (scrapeModel cfg fuel).crawledPages =
        (crawlResult cfg fuel).crawledPages from hp.2.2.1]
    exact hinv.crawledNodup
  · rw [show (scrapeModel cfg fuel).fetchLog =
        (crawlResult cfg fuel).fetchLog from hp.2.2.2.1]
    exact hinv.fetchNodup

/-- C10: every entry of `crawled_pages` corresponds to a successful
fetch; every fetch attempt (successful or raising) enters the visited
set; `pages_crawled` counts successes plus failures exactly, so
`|crawled_pages| ≤ pages_crawled` with strict inequality exactly when
some fetch failed. -/
theorem crawled_pages_are_successful_fetches (cfg : Cfg) (fuel : Nat) :
    (∀ u ∈ (scrapeModel cfg fuel).crawledPages, cfg.world u ≠ none)
    ∧ (scrapeModel cfg fuel).pagesCrawled =
        (scrapeModel cfg fuel).crawledPages.length +
        (scrapeModel cfg fuel).failedFetches
    ∧ (∀ p ∈ (scrapeModel cfg fuel).fetchLog,
        p.1 ∈ (scrapeModel cfg fuel).visited)
    ∧ ((scrapeModel cfg fuel).crawledPages.length <
        (scrapeModel cfg fuel).pagesCrawled ↔
        0 < (scrapeModel cfg fuel).failedFetches) := by
  have hinv := (crawlLoop_inv cfg fuel [(cfg.seed, 0)] initState
    (loopInv_init cfg)).1
  have hp := applyFallback_preserves cfg (crawlResult cfg fuel)
  have hcr : (scrapeModel cfg fuel).crawledPages =
      (crawlResult cfg fuel).crawledPages := hp.2.2.1
  have hpg : (scrapeModel cfg fuel).pagesCrawled =
      (crawlResult cfg fuel).pagesCrawled := hp.2.1
  have hff : (scrapeModel cfg fuel).failedFetches =
      (crawlResult cfg fuel).failedFetches := hp.2.2.2.2.1
  have hfl : (scrapeModel cfg fuel).fetchLog =
      (crawlResult cfg fuel).fetchLog := hp.2.2.2.1
  have hvs : (scrapeModel cfg fuel).visited =
      (crawlResult cfg fuel).visited := hp.1
  refine ⟨?_, ?_, ?_, ?_⟩
  · intro u hu
    rw [hcr] at hu
    exact hinv.crawledOk u hu
  · rw [hcr, hpg, hff]
    exact hinv.pagesEq
  · intro p hmem
    rw [hfl] at hmem
    rw [hvs]
    exact hinv.fetchVisited p hmem
  · rw [hcr, hpg, hff]
    have hpe : (crawlResult cfg fuel).pagesCrawled =
        (crawlResult cfg fuel).crawledPages.length +
        (crawlResult cfg fuel).failedFetches := hinv.pagesEq
    omega

/-- Witness for C10 at a concrete crawl with one successful and no
failed fetch, and at one with a failing fetch. -/
theorem crawled_pages_are_successful_fetches_witness :
    "https://ex.org/" ∈ (scrapeModel cfgSlash 10).crawledPages
    ∧ cfgSlash.world "https://ex.org/" ≠ none
    ∧ ("https://ex.org", 1) ∈ (scrapeModel cfgSlash 10).fetchLog
    ∧ "https://ex.org" ∈ (scrapeModel cfgSlash 10).visited :=
  ⟨by decide,
   (crawled_pages_are_successful_fetches cfgSlash 10).1 "https://ex.org/"
     (by decide), by decide,
   (crawled_pages_are_successful_fetches cfgSlash 10).2.2.1
     ("https://ex.org", 1) (by decide)⟩

end PlanMyKids

namespace PlanMyKids

/-! ## Claim C4 -/

/-- C4 (counterexample): a crawl whose seed fetch raises performs one
fetch attempt, and the field extractors are never run — they run zero
times, not exactly once.  (Since the queue only grows from successful
fetches, a crawl with a failed first attempt has no later page either:
the `pages_crawled == 1` branch is tied to the first attempt, not to the
first success.) -/
theorem field_extractors_skipped_on_failed_seed :
    (scrapeModel ⟨fun _ r => r, fun l => l, ⟨⟨2025, 6, 1⟩, false⟩,
        fun _ => none, 5, 2, true, "https://s.ex"⟩ 10).fieldRuns = []
    ∧ (scrapeModel ⟨fun _ r => r, fun l => l, ⟨⟨2025, 6, 1⟩, false⟩,
        fun _ => none, 5, 2, true, "https://s.ex"⟩ 10).pagesCrawled = 1 :=
  ⟨by decide, by decide⟩

/-- C4 (amended): the field extractors run at most once per crawl, and
when they run it is against the first entry of `crawled_pages`; they run
exactly once if and only if the crawl's first fetch attempt — the seed —
succeeds with nonempty text, and never when the seed fetch fails.  They
are never re-run on subsequent pages. -/
theorem field_extractors_once_iff_first_fetch (cfg : Cfg) (fuel : Nat)
    (hmp : 0 < cfg.maxPages) (hfu : 1 ≤ fuel) :
    (scrapeModel cfg fuel).fieldRuns.length ≤ 1
    ∧ (∀ u ∈ (scrapeModel cfg fuel).fieldRuns,
        (scrapeModel cfg fuel).crawledPages.head? = some u)
    ∧ (cfg.world cfg.seed = none → (scrapeModel cfg fuel).fieldRuns = [])
    ∧ (∀ pd, cfg.world cfg.seed = some pd → pd.text ≠ "" →
        (scrapeModel cfg fuel).fieldRuns = [cfg.seed]) := by
  have hinv := (crawlLoop_inv cfg fuel [(cfg.seed, 0)] initState
    (loopInv_init cfg)).1
  have hfp := applyFallback_preserves cfg (crawlResult cfg fuel)
  have hfr : (scrapeModel cfg fuel).fieldRuns =
      (crawlResult cfg fuel).fieldRuns := hfp.2.2.2.2.2.1
  have hcr : (scrapeModel cfg fuel).crawledPages =
      (crawlResult cfg fuel).crawledPages := hfp.2.2.1
  refine ⟨?_, ?_, ?_, ?_⟩
  · rw [hfr]
    exact hinv.fieldLen
  · intro u hu
    rw [hfr] at hu
    rw [hcr]
    exact hinv.fieldHead u hu
  · intro hw
    rw [hfr]
    obtain ⟨f, rfl⟩ : ∃ f, fuel = f + 1 := ⟨fuel - 1, by omega⟩
    have hcp : crawlPage cfg initState cfg.seed 0 =
        (failState initState cfg.seed 0, none, []) := by
      unfold crawlPage
      rw [if_neg (show cfg.seed ∉ initState.visited from
          List.not_mem_nil cfg.seed),
        if_neg (show ¬ cfg.maxPages ≤ initState.pagesCrawled from
          Nat.not_le.mpr hmp),
        if_neg (Nat.not_lt.mpr (Nat.zero_le _)), hw]
    have hred : crawlResult cfg (f + 1) = failState initState cfg.seed 0
        := by
      unfold crawlResult
      simp only [crawlLoop]
      rw [if_pos (show initState.pagesCrawled < cfg.maxPages from hmp),
        if_neg (show cfg.seed ∉ initState.visited from
          List.not_mem_nil cfg.seed), hcp]
      show (if (failState initState cfg.seed 0).reDate.isSome &&
          (failState initState cfg.seed 0).newDate.isSome then
          failState initState cfg.seed 0
        else crawlLoop cfg f [] (failState initState cfg.seed 0)) =
        failState initState cfg.seed 0
      rw [if_neg (fun hx => Bool.noConfusion hx)]
      exact crawlLoop_nil cfg f _
    rw [hred]
    rfl
  · intro pd hw htext
    rw [hfr]
    obtain ⟨f, rfl⟩ : ∃ f, fuel = f + 1 := ⟨fuel - 1, by omega⟩
    have hcp : crawlPage cfg initState cfg.seed 0 =
        (succState initState cfg.seed 0, some pd,
         prioritizeLinks cfg.uj cfg.base cfg.seed pd.anchors
           (extractInternalLinks cfg.uj cfg.pySet cfg.base cfg.domain
             cfg.seed (cfg.seed :: initState.visited) pd.anchors)) := by
      unfold crawlPage
      rw [if_neg (show cfg.seed ∉ initState.visited from
          List.not_mem_nil cfg.seed),
        if_neg (show ¬ cfg.maxPages ≤ initState.pagesCrawled from
          Nat.not_le.mpr hmp),
        if_neg (Nat.not_lt.mpr (Nat.zero_le _)), hw]
    have hred : crawlResult cfg (f + 1) =
        (if pd.text = "" then
          (if (succState initState cfg.seed 0).reDate.isSome &&
              (succState initState cfg.seed 0).newDate.isSome then
            succState initState cfg.seed 0
          else crawlLoop cfg f [] (succState initState cfg.seed 0))
        else
          (if (pageStep cfg cfg.seed pd
                (succState initState cfg.seed 0)).reDate.isSome &&
              (pageStep cfg cfg.seed pd
                (succState initState cfg.seed 0)).newDate.isSome then
            pageStep cfg cfg.seed pd (succState initState cfg.seed 0)
          else crawlLoop cfg f
            (enqueueLinks cfg [] 0
              (prioritizeLinks cfg.uj cfg.base cfg.seed pd.anchors
                (extractInternalLinks cfg.uj cfg.pySet cfg.base cfg.domain
                  cfg.seed (cfg.seed :: initState.visited) pd.anchors))
              (pageStep cfg cfg.seed pd (succState initState cfg.seed 0)))
            (pageStep cfg cfg.seed pd (succState initState cfg.seed 0))))
        := by
      unfold crawlResult
      simp only [crawlLoop]
      rw [if_pos (show initState.pagesCrawled < cfg.maxPages from hmp),
        if_neg (show cfg.seed ∉ initState.visited from
          List.not_mem_nil cfg.seed), hcp]
    have hfr3 : (pageStep cfg cfg.seed pd
        (succState initState cfg.seed 0)).fieldRuns = [cfg.seed] := by
      unfold pageStep
      rw [if_pos
        (show (succState initState cfg.seed 0).pagesCrawled = 1 from rfl)]
      rfl
    have hinv3 : LoopInv cfg
        (pageStep cfg cfg.seed pd (succState initState cfg.seed 0)) :=
      loopInv_pageStep cfg initState cfg.seed 0 pd (loopInv_init cfg)
        (List.not_mem_nil _) hmp (Nat.zero_le _) hw
    rw [hred, if_neg htext]
    by_cases hb : (pageStep cfg cfg.seed pd
        (succState initState cfg.seed 0)).reDate.isSome &&
        (pageStep cfg cfg.seed pd
          (succState initState cfg.seed 0)).newDate.isSome
    · rw [if_pos hb]
      exact hfr3
    · rw [if_neg hb]
      rcases crawlLoop_inv cfg f
          (enqueueLinks cfg [] 0
            (prioritizeLinks cfg.uj cfg.base cfg.seed pd.anchors
              (extractInternalLinks cfg.uj cfg.pySet cfg.base cfg.domain
                cfg.seed (cfg.seed :: initState.visited) pd.anchors))
            (pageStep cfg cfg.seed pd (succState initState cfg.seed 0)))
          (pageStep cfg cfg.seed pd (succState initState cfg.seed 0)) hinv3
        with ⟨hi, ext, hext⟩
      rw [hfr3] at hext
      have hlen := hi.fieldLen
      rw [hext] at hlen
      have hext0 : ext = [] := by
        rw [List.length_append] at hlen
        exact List.length_eq_zero.mp (by simpa using hlen)
      rw [hext, hext0]
      rfl

/-- Witness for the amended C4: on the concrete two-page crawl the field
extractors ran exactly once, against the seed page. -/
theorem field_extractors_once_iff_first_fetch_witness :
    0 < cfgSlash.maxPages ∧ (1 : Nat) ≤ 10
    ∧ cfgSlash.world cfgSlash.seed = some ⟨"hello", [⟨"/", ""⟩]⟩
    ∧ (scrapeModel cfgSlash 10).fieldRuns = [cfgSlash.seed] :=
  ⟨by decide, by decide, by decide,
   (field_extractors_once_iff_first_fetch cfgSlash 10 (by decide)
      (by decide)).2.2.2 ⟨"hello", [⟨"/", ""⟩]⟩ (by decide) (by decide)⟩

end PlanMyKids

namespace PlanMyKids

/-! ## Claim C6 -/

/-- A one-page site whose seed page yields a re-enrollment date and an
off-domain registration anchor, but no new-registration date. -/
def cfgOneDate : Cfg :=
  ⟨fun _ r => r, fun l => l, ⟨⟨2025, 6, 1⟩, false⟩,
   fun u => if u = "https://s.ex" then
      some ⟨"current students: march 5, 2026",
        [⟨"https://other.ex/register", "Register"⟩]⟩
    else none,
   5, 2, true, "https://s.ex"⟩

/-- C6 (counterexample): after the BFS a registration URL was discovered
and never visited, and `new_registration_date` is still missing — yet no
fallback fetch happens, because line 282 requires BOTH date fields to be
missing (`not re and not new`), not "at least one". -/
theorem no_fallback_fetch_when_one_date_missing :
    (scrapeModel cfgOneDate 10).regUrl = some "https://other.ex/register"
    ∧ (scrapeModel cfgOneDate 10).reDate = some "2026-03-05"
    ∧ (scrapeModel cfgOneDate 10).newDate = none
    ∧ "https://other.ex/register" ∉ (scrapeModel cfgOneDate 10).visited
    ∧ (scrapeModel cfgOneDate 10).regFetch = none :=
  ⟨by decide, by decide, by decide, by decide, by decide⟩

/-- C6 (amended): the post-crawl fallback performs exactly one direct
fetch of the discovered registration URL if and only if that URL was
never visited during the BFS and BOTH date fields are still missing; if
either date is already set, or the URL was visited, or none was
discovered, no fallback fetch occurs. -/
theorem fallback_fetch_conditions (cfg : Cfg) (fuel : Nat) :
    (∀ u, (crawlResult cfg fuel).regUrl = some u →
      (crawlResult cfg fuel).reDate = none →
      (crawlResult cfg fuel).newDate = none →
      u ∉ (crawlResult cfg fuel).visited →
      (scrapeModel cfg fuel).regFetch = some u)
    ∧ ((crawlResult cfg fuel).reDate.isSome ∨
        (crawlResult cfg fuel).newDate.isSome →
      (scrapeModel cfg fuel).regFetch = none)
    ∧ (∀ u, (crawlResult cfg fuel).regUrl = some u →
      u ∈ (crawlResult cfg fuel).visited →
      (scrapeModel cfg fuel).regFetch = none)
    ∧ ((crawlResult cfg fuel).regUrl = none →
      (scrapeModel cfg fuel).regFetch = none) := by
  have hrf : (crawlResult cfg fuel).regFetch = none :=
    ((crawlLoop_inv cfg fuel [(cfg.seed, 0)] initState
      (loopInv_init cfg)).1).regFetchNone
  refine ⟨?_, ?_, ?_, ?_⟩
  · intro u hru hre hnew hniv
    show (applyFallback cfg (crawlResult cfg fuel)).regFetch = some u
    unfold applyFallback
    simp only [hru, hre, hnew, Option.isNone_none, Bool.and_self, if_true]
    rw [if_neg hniv]
    unfold scrapeRegistrationPage
    simp only [hru]
    cases hwu : cfg.world u with
    | none => simp only [hwu]
    | some pd => simp only [hwu]
  · intro hsome
    show (applyFallback cfg (crawlResult cfg fuel)).regFetch = none
    unfold applyFallback
    cases hru : (crawlResult cfg fuel).regUrl with
    | none => exact hrf
    | some u =>
      simp only [hru]
      have hcond : ((crawlResult cfg fuel).reDate.isNone &&
          (crawlResult cfg fuel).newDate.isNone) = false := by
        rcases hsome with hs | hs
        · rw [Option.isSome_iff_exists] at hs
          rcases hs with ⟨v, hv⟩
          simp [hv]
        · rw [Option.isSome_iff_exists] at hs
          rcases hs with ⟨v, hv⟩
          simp [hv]
      simp only [hcond, Bool.false_eq_true, if_false]
      exact hrf
  · intro u hru hvis
    show (applyFallback cfg (crawlResult cfg fuel)).regFetch = none
    unfold applyFallback
    simp only [hru, hvis, ite_true, ite_self]
    exact hrf
  · intro hru
    show (applyFallback cfg (crawlResult cfg fuel)).regFetch = none
    unfold applyFallback
    simp only [hru]
    exact hrf

/-- A one-page site with a registration anchor and no dates at all. -/
def cfgRegNoDates : Cfg :=
  ⟨fun _ r => r, fun l => l, ⟨⟨2025, 6, 1⟩, false⟩,
   fun u => if u = "https://s.ex" then
      some ⟨"welcome", [⟨"https://other.ex/register", "Register"⟩]⟩
    else none,
   5, 2, true, "https://s.ex"⟩

/-- Witness for the amended C6: with both dates missing and the
registration URL unvisited, the fallback performs its one fetch. -/
theorem fallback_fetch_conditions_witness :
    (crawlResult cfgRegNoDates 10).regUrl =
      some "https://other.ex/register"
    ∧ (crawlResult cfgRegNoDates 10).reDate = none
    ∧ (crawlResult cfgRegNoDates 10).newDate = none
    ∧ "https://other.ex/register" ∉ (crawlResult cfgRegNoDates 10).visited
    ∧ (scrapeModel cfgRegNoDates 10).regFetch =
      some "https://other.ex/register" :=
  ⟨by decide, by decide, by decide, by decide,
   (fallback_fetch_conditions cfgRegNoDates 10).1
     "https://other.ex/register" (by decide) (by decide) (by decide)
     (by decide)⟩

end PlanMyKids

namespace PlanMyKids

/-! ## Claim C9: properties of `_normalize_url` -/

theorem toNat_charOfNat (n : Nat) (h : n < 55296) : (Char.ofNat n).toNat = n := by
  unfold Char.ofNat
  rw [dif_pos (Or.inl h)]
  rfl

theorem pyToLower_toNat_of_upper {c : Char} (h : 65 ≤ c.toNat ∧ c.toNat ≤ 90) :
    (pyToLower c).toNat = c.toNat + 32 := by
  unfold pyToLower
  rw [if_pos h]
  exact toNat_charOfNat _ (by omega)

theorem pyToLower_of_not_upper {c : Char} (h : ¬(65 ≤ c.toNat ∧ c.toNat ≤ 90)) :
    pyToLower c = c := by
  unfold pyToLower
  rw [if_neg h]

theorem pyToLower_idem (c : Char) : pyToLower (pyToLower c) = pyToLower c := by
  by_cases h : 65 ≤ c.toNat ∧ c.toNat ≤ 90
  · have ht := pyToLower_toNat_of_upper h
    exact pyToLower_of_not_upper (by rw [ht]; omega)
  · rw [pyToLower_of_not_upper h, pyToLower_of_not_upper h]

theorem pyLowerL_idem (s : List Char) : pyLowerL (pyLowerL s) = pyLowerL s := by
  induction s with
  | nil => rfl
  | cons a t ih =>
    show pyToLower (pyToLower a) :: pyLowerL (pyLowerL t) = pyToLower a :: pyLowerL t
    rw [pyToLower_idem, ih]

theorem isAsciiAlpha_pyToLower {c : Char} (h : isAsciiAlpha c = true) :
    isAsciiAlpha (pyToLower c) = true := by
  unfold isAsciiAlpha at h
  simp only [Bool.or_eq_true, Bool.and_eq_true, decide_eq_true_eq] at h
  by_cases hu : 65 ≤ c.toNat ∧ c.toNat ≤ 90
  · have ht := pyToLower_toNat_of_upper hu
    unfold isAsciiAlpha
    simp only [Bool.or_eq_true, Bool.and_eq_true, decide_eq_true_eq, ht]
    omega
  · rw [pyToLower_of_not_upper hu]
    unfold isAsciiAlpha
    simp only [Bool.or_eq_true, Bool.and_eq_true, decide_eq_true_eq]
    omega

theorem isSchemeChar_pyToLower {c : Char} (h : isSchemeChar c = true) :
    isSchemeChar (pyToLower c) = true := by
  by_cases hu : 65 ≤ c.toNat ∧ c.toNat ≤ 90
  · have ht := pyToLower_toNat_of_upper hu
    unfold isSchemeChar isAsciiAlpha isPyDigit
    simp only [Bool.or_eq_true, Bool.and_eq_true, decide_eq_true_eq, ht]
    exact Or.inl (Or.inl (Or.inl (Or.inl (Or.inr (by omega)))))
  · rw [pyToLower_of_not_upper hu]
    exact h

theorem ne_colon_of_isSchemeChar {c : Char} (h : isSchemeChar c = true) : c ≠ ':' := by
  intro he
  subst he
  exact absurd h (by decide)

theorem colon_not_mem_of_valid {sch : List Char} (h : isValidSchemeL sch = true) :
    ':' ∉ sch := by
  cases sch with
  | nil => simp
  | cons c rest =>
    have h' : (isAsciiAlpha c && (c :: rest).all isSchemeChar) = true := h
    simp only [Bool.and_eq_true, List.all_eq_true] at h'
    intro hm
    exact ne_colon_of_isSchemeChar (h'.2 _ hm) rfl

theorem isValidSchemeL_pyLowerL {sch : List Char} (h : isValidSchemeL sch = true) :
    isValidSchemeL (pyLowerL sch) = true := by
  cases sch with
  | nil => exact absurd h (by decide)
  | cons c rest =>
    have h' : (isAsciiAlpha c && (c :: rest).all isSchemeChar) = true := h
    simp only [Bool.and_eq_true, List.all_eq_true] at h'
    show (isAsciiAlpha (pyToLower c) &&
      (pyToLower c :: pyLowerL rest).all isSchemeChar) = true
    simp only [Bool.and_eq_true, List.all_eq_true]
    refine ⟨isAsciiAlpha_pyToLower h'.1, ?_⟩
    intro x hx
    have hx' : x ∈ pyLowerL (c :: rest) := hx
    rcases List.mem_map.1 hx' with ⟨y, hy, rfl⟩
    exact isSchemeChar_pyToLower (h'.2 y hy)

theorem splitAtFirst_eq_none {sep : Char} : ∀ {s : List Char}, sep ∉ s →
    splitAtFirst sep s = none
  | [], _ => rfl
  | c :: rest, h => by
    have hc : ¬ c = sep := fun he => h (by rw [he]; exact List.mem_cons_self _ _)
    show (if c = sep then some (([] : List Char), rest)
      else match splitAtFirst sep rest with
        | none => none
        | some (a, b) => some (c :: a, b)) = none
    rw [if_neg hc, splitAtFirst_eq_none (fun hm => h (List.mem_cons_of_mem _ hm))]

theorem splitAtFirst_append {sep : Char} : ∀ {a : List Char} (b : List Char),
    sep ∉ a → splitAtFirst sep (a ++ sep :: b) = some (a, b)
  | [], b, _ => by
    show (if sep = sep then some (([] : List Char), b)
      else match splitAtFirst sep b with
        | none => none
        | some (x, y) => some (sep :: x, y)) = some ([], b)
    rw [if_pos rfl]
  | c :: rest, b, h => by
    have hc : ¬ c = sep := fun he => h (by rw [he]; exact List.mem_cons_self _ _)
    show (if c = sep then some (([] : List Char), rest ++ sep :: b)
      else match splitAtFirst sep (rest ++ sep :: b) with
        | none => none
        | some (x, y) => some (c :: x, y)) = some (c :: rest, b)
    rw [if_neg hc, splitAtFirst_append b (fun hm => h (List.mem_cons_of_mem _ hm))]

theorem takeDrop_append {q : Char → Bool} : ∀ {a b : List Char},
    (∀ x ∈ a, q x = true) →
    (b = [] ∨ ∃ c t, b = c :: t ∧ q c = false) →
    (a ++ b).takeWhile q = a ∧ (a ++ b).dropWhile q = b
  | [], b, _, hb => by
    simp only [List.nil_append]
    rcases hb with rfl | ⟨c, t, rfl, hc⟩
    · exact ⟨rfl, rfl⟩
    · constructor
      · simp [List.takeWhile_cons, hc]
      · simp [List.dropWhile_cons, hc]
  | x :: rest, b, ha, hb => by
    have hx : q x = true := ha x (List.mem_cons_self _ _)
    obtain ⟨h1, h2⟩ := takeDrop_append
      (fun y hy => ha y (List.mem_cons_of_mem _ hy)) hb
    constructor
    · simp [List.takeWhile_cons, hx, h1]
    · simp [List.dropWhile_cons, hx, h2]

theorem dropWhile_dropWhile (q : Char → Bool) : ∀ (l : List Char),
    (l.dropWhile q).dropWhile q = l.dropWhile q
  | [] => rfl
  | c :: rest => by
    by_cases hc : q c = true
    · simp [List.dropWhile_cons, hc, dropWhile_dropWhile q rest]
    · simp [List.dropWhile_cons, hc]

theorem rstripSlash_idem (p : List Char) : rstripSlash (rstripSlash p) = rstripSlash p := by
  unfold rstripSlash
  rw [List.reverse_reverse, dropWhile_dropWhile]

theorem rstripSlash_append_slash (p : List Char) :
    rstripSlash (p ++ ['/']) = rstripSlash p := by
  unfold rstripSlash
  rw [List.reverse_append]
  simp [List.dropWhile_cons]

theorem rstripSlash_decomp (p : List Char) : ∃ t, p = rstripSlash p ++ t := by
  refine ⟨(p.reverse.takeWhile (fun c => c = '/')).reverse, ?_⟩
  unfold rstripSlash
  rw [← List.reverse_append, List.takeWhile_append_dropWhile, List.reverse_reverse]

theorem eq_cons_of_head {l : List Char} {c : Char} (h : l.head? = some c) :
    ∃ t, l = c :: t := by
  cases l with
  | nil => exact absurd h (by simp)
  | cons a t =>
    have : a = c := by
      have h' : some a = some c := h
      injection h'
    exact ⟨t, by rw [this]⟩

theorem rstripSlash_head {p : List Char} (hp : p = [] ∨ p.head? = some '/') :
    rstripSlash p = [] ∨ (rstripSlash p).head? = some '/' := by
  rcases hp with rfl | hh
  · exact Or.inl rfl
  · obtain ⟨t0, hp0⟩ := eq_cons_of_head hh
    obtain ⟨t, ht⟩ := rstripSlash_decomp p
    cases hr : rstripSlash p with
    | nil => exact Or.inl rfl
    | cons x xs =>
      right
      rw [hr] at ht
      rw [hp0] at ht
      have hx : x = '/' := by
        have : '/' :: t0 = x :: (xs ++ t) := ht
        injection this with h1 _
        exact h1.symm
      rw [hx]
      rfl

theorem mem_rstripSlash {c : Char} {p : List Char} (h : c ∈ rstripSlash p) : c ∈ p := by
  obtain ⟨t, ht⟩ := rstripSlash_decomp p
  rw [ht]
  exact List.mem_append_left _ h

theorem splitFragmentL_of_not_mem {s : List Char} (h : '#' ∉ s) :
    splitFragmentL s = (s, []) := by
  unfold splitFragmentL
  rw [splitAtFirst_eq_none h]

theorem splitFragmentL_append {a : List Char} (b : List Char) (h : '#' ∉ a) :
    splitFragmentL (a ++ '#' :: b) = (a, b) := by
  unfold splitFragmentL
  rw [splitAtFirst_append b h]

theorem splitQueryL_of_not_mem {s : List Char} (h : '?' ∉ s) :
    splitQueryL s = (s, []) := by
  unfold splitQueryL
  rw [splitAtFirst_eq_none h]

theorem splitQueryL_append {a : List Char} (b : List Char) (h : '?' ∉ a) :
    splitQueryL (a ++ '?' :: b) = (a, b) := by
  unfold splitQueryL
  rw [splitAtFirst_append b h]

theorem contains_eq_false_of_not_mem {a : Char} {l : List Char} (h : a ∉ l) :
    l.contains a = false := by
  show List.elem a l = false
  simp only [List.elem_eq_mem]
  exact decide_eq_false h

theorem splitParamsL_of_not_mem {p : List Char} (h : ';' ∉ p) :
    splitParamsL p = (p, []) := by
  unfold splitParamsL
  rw [contains_eq_false_of_not_mem h]
  simp

theorem extractSchemeL_wf {sch : List Char} (R : List Char)
    (h : isValidSchemeL sch = true) :
    extractSchemeL (sch ++ ':' :: R) = (pyLowerL sch, R) := by
  unfold extractSchemeL
  rw [splitAtFirst_append R (colon_not_mem_of_valid h)]
  show (if isValidSchemeL sch then (pyLowerL sch, R)
    else ([], sch ++ ':' :: R)) = (pyLowerL sch, R)
  rw [if_pos h]

theorem extractNetlocL_slash (rest : List Char) :
    extractNetlocL ('/' :: '/' :: rest) =
      (rest.takeWhile (fun c => !isNetlocEnd c),
       rest.dropWhile (fun c => !isNetlocEnd c)) := rfl

theorem pyUrlparseL_wf {sch host p qpart fpart : List Char}
    (hw : WfUrl sch host p qpart fpart) :
    pyUrlparseL (wfUrl sch host p qpart fpart) =
      ⟨pyLowerL sch, host, p, [], qpart.drop 1, fpart.drop 1⟩ := by
  obtain ⟨hs, hh, hp, hpd, hq, hf⟩ := hw
  -- the tail after the netloc
  have hb : p ++ (qpart ++ fpart) = [] ∨
      ∃ c t, p ++ (qpart ++ fpart) = c :: t ∧ (!isNetlocEnd c) = false := by
    rcases hp with rfl | hph
    · rcases hq with rfl | ⟨hqh, _⟩
      · rcases hf with rfl | hfh
        · exact Or.inl rfl
        · obtain ⟨t, ht⟩ := eq_cons_of_head hfh
          exact Or.inr ⟨'#', t, by rw [ht]; rfl, by decide⟩
      · obtain ⟨t, ht⟩ := eq_cons_of_head hqh
        exact Or.inr ⟨'?', t ++ fpart, by rw [ht]; rfl, by decide⟩
    · obtain ⟨t, ht⟩ := eq_cons_of_head hph
      exact Or.inr ⟨'/', t ++ (qpart ++ fpart), by rw [ht]; rfl, by decide⟩
  obtain ⟨htk, hdp⟩ := takeDrop_append
    (a := host) (b := p ++ (qpart ++ fpart))
    (fun x hx => by simp [hh x hx]) hb
  -- no '#' in the path, no '?' in the path
  have hpn : '#' ∉ p := fun hm => (hpd _ hm).2.1 rfl
  have hpq : '?' ∉ p := fun hm => (hpd _ hm).1 rfl
  have hps : ';' ∉ p := fun hm => (hpd _ hm).2.2 rfl
  have hqn : '#' ∉ qpart := by
    rcases hq with rfl | ⟨hqh, hqt⟩
    · simp
    · obtain ⟨t, ht⟩ := eq_cons_of_head hqh
      rw [ht]
      intro hm
      rcases List.mem_cons.1 hm with he | hm2
      · exact absurd he (by decide)
      · exact hqt (by rw [ht]; exact hm2)
  -- fragment split
  have hfrag : splitFragmentL (p ++ (qpart ++ fpart)) =
      (p ++ qpart, fpart.drop 1) := by
    rcases hf with rfl | hfh
    · rw [List.append_nil]
      exact splitFragmentL_of_not_mem (by
        intro hm
        rcases List.mem_append.1 hm with hm1 | hm2
        · exact hpn hm1
        · exact hqn hm2)
    · obtain ⟨t, ht⟩ := eq_cons_of_head hfh
      rw [ht, ← List.append_assoc]
      rw [splitFragmentL_append t (by
        intro hm
        rcases List.mem_append.1 hm with hm1 | hm2
        · exact hpn hm1
        · exact hqn hm2)]
      rfl
  -- query split
  have hquery : splitQueryL (p ++ qpart) = (p, qpart.drop 1) := by
    rcases hq with rfl | ⟨hqh, _⟩
    · rw [List.append_nil]
      exact splitQueryL_of_not_mem hpq
    · obtain ⟨t, ht⟩ := eq_cons_of_head hqh
      rw [ht, splitQueryL_append t hpq]
      rfl
  -- assemble
  simp only [wfUrl, pyUrlparseL]
  rw [extractSchemeL_wf _ hs]
  show UrlPartsL.mk (pyLowerL sch)
      (extractNetlocL ('/' :: '/' :: (host ++ (p ++ (qpart ++ fpart))))).1 _ _ _ _ = _
  rw [extractNetlocL_slash]
  simp only [htk, hdp]
  rw [hfrag]
  simp only []
  rw [hquery]
  simp only []
  rw [splitParamsL_of_not_mem hps]

theorem normalizeL_wf {sch host p qpart fpart : List Char}
    (hw : WfUrl sch host p qpart fpart) :
    normalizeL (wfUrl sch host p qpart fpart) =
      wfUrl (pyLowerL sch) host (rstripSlash p)
        (if (qpart.drop 1).isEmpty then [] else '?' :: qpart.drop 1) [] := by
  simp only [normalizeL]
  rw [pyUrlparseL_wf hw]
  simp only [wfUrl, List.append_nil]
  cases hq1 : qpart.drop 1 with
  | nil => simp [List.append_assoc]
  | cons c t =>
    simp only [List.isEmpty_cons, if_neg (by simp : ¬False)]
    simp [List.append_assoc]

theorem wfUrl_slash {sch host p qpart fpart : List Char}
    (hw : WfUrl sch host p qpart fpart) :
    WfUrl sch host (p ++ ['/']) qpart fpart := by
  obtain ⟨hs, hh, hp, hpd, hq, hf⟩ := hw
  refine ⟨hs, hh, ?_, ?_, hq, hf⟩
  · right
    rcases hp with rfl | hph
    · rfl
    · obtain ⟨t, ht⟩ := eq_cons_of_head hph
      rw [ht]
      rfl
  · intro c hc
    rcases List.mem_append.1 hc with hm | hm
    · exact hpd c hm
    · have : c = '/' := List.mem_singleton.1 hm
      rw [this]
      exact ⟨by decide, by decide, by decide⟩

theorem wfUrl_nofrag {sch host p qpart fpart : List Char}
    (hw : WfUrl sch host p qpart fpart) :
    WfUrl sch host p qpart [] := by
  obtain ⟨hs, hh, hp, hpd, hq, _⟩ := hw
  exact ⟨hs, hh, hp, hpd, hq, Or.inl rfl⟩

theorem wfUrl_norm {sch host p qpart fpart : List Char}
    (hw : WfUrl sch host p qpart fpart) :
    WfUrl (pyLowerL sch) host (rstripSlash p)
      (if (qpart.drop 1).isEmpty then [] else '?' :: qpart.drop 1) [] := by
  obtain ⟨hs, hh, hp, hpd, hq, _⟩ := hw
  have hqt : '#' ∉ qpart.drop 1 := by
    rcases hq with rfl | ⟨_, h2⟩
    · simp
    · exact h2
  refine ⟨isValidSchemeL_pyLowerL hs, hh, rstripSlash_head hp, ?_, ?_, Or.inl rfl⟩
  · intro c hc
    exact hpd c (mem_rstripSlash hc)
  · cases hq1 : qpart.drop 1 with
    | nil => exact Or.inl rfl
    | cons c t =>
      right
      rw [hq1] at hqt
      show ('?' :: c :: t).head? = some '?' ∧ '#' ∉ (c :: t)
      exact ⟨rfl, hqt⟩

/-- C9 (counterexample): `_normalize_url` is not idempotent on every
string. On the scheme-less input `example.com/page`, `urlparse` puts
everything into the path, so normalization prepends `://`; a second
normalization prepends `://` again. -/
theorem normalize_not_idempotent :
    normalizeUrl (normalizeUrl "example.com/page") ≠ normalizeUrl "example.com/page" := by
  decide

/-- C9 (amended): on well-formed absolute URLs
`scheme://host path [?query] [#fragment]` (valid scheme; host free of
`/` `?` `#`; path empty or `/`-led with no `?` `#` `;`; query part empty
or `?`-led with no later `#`; fragment part empty or `#`-led),
`_normalize_url` is idempotent, and two URLs that differ only by a
trailing slash on the path or only by the fragment normalize to the same
string. -/
theorem normalize_idempotent_on_wellformed
    (sch host p qpart fpart : List Char)
    (hw : WfUrl sch host p qpart fpart) :
    normalizeUrl (normalizeUrl (String.mk (wfUrl sch host p qpart fpart)))
        = normalizeUrl (String.mk (wfUrl sch host p qpart fpart))
    ∧ normalizeUrl (String.mk (wfUrl sch host (p ++ ['/']) qpart fpart))
        = normalizeUrl (String.mk (wfUrl sch host p qpart fpart))
    ∧ normalizeUrl (String.mk (wfUrl sch host p qpart []))
        = normalizeUrl (String.mk (wfUrl sch host p qpart fpart)) := by
  have hA : normalizeL (normalizeL (wfUrl sch host p qpart fpart))
      = normalizeL (wfUrl sch host p qpart fpart) := by
    rw [normalizeL_wf hw, normalizeL_wf (wfUrl_norm hw),
      pyLowerL_idem, rstripSlash_idem]
    cases hq1 : qpart.drop 1 with
    | nil => rfl
    | cons c t => rfl
  have hB : normalizeL (wfUrl sch host (p ++ ['/']) qpart fpart)
      = normalizeL (wfUrl sch host p qpart fpart) := by
    rw [normalizeL_wf (wfUrl_slash hw), normalizeL_wf hw, rstripSlash_append_slash]
  have hC : normalizeL (wfUrl sch host p qpart [])
      = normalizeL (wfUrl sch host p qpart fpart) := by
    rw [normalizeL_wf (wfUrl_nofrag hw), normalizeL_wf hw]
  exact ⟨congrArg String.mk hA, congrArg String.mk hB, congrArg String.mk hC⟩

/-- Witness for the amended C9 at the concrete URL
`https://example.com/a/b/?x=1#top`. -/
theorem normalize_idempotent_on_wellformed_witness :
    WfUrl "https".data "example.com".data "/a/b/".data "?x=1".data "#top".data ∧
    (normalizeUrl (normalizeUrl (String.mk (wfUrl "https".data "example.com".data
          "/a/b/".data "?x=1".data "#top".data)))
        = normalizeUrl (String.mk (wfUrl "https".data "example.com".data
          "/a/b/".data "?x=1".data "#top".data))
    ∧ normalizeUrl (String.mk (wfUrl "https".data "example.com".data
          ("/a/b/".data ++ ['/']) "?x=1".data "#top".data))
        = normalizeUrl (String.mk (wfUrl "https".data "example.com".data
          "/a/b/".data "?x=1".data "#top".data))
    ∧ normalizeUrl (String.mk (wfUrl "https".data "example.com".data
          "/a/b/".data "?x=1".data []))
        = normalizeUrl (String.mk (wfUrl "https".data "example.com".data
          "/a/b/".data "?x=1".data "#top".data))) :=
  ⟨by decide, normalize_idempotent_on_wellformed "https".data "example.com".data
    "/a/b/".data "?x=1".data "#top".data (by decide)⟩

end PlanMyKids
